import Mathlib

/-!
Verification development for the TrainTrack service (Indian Railways running
status parser).  The definitions below are a shallow embedding of the Python
sources:

* `src/app/helpers/train_helper.py` — HTML status-line extraction, line
  normalisation, anchor ("Last Updates On") parsing, tiered event parsing,
  deduplication;
* `src/app/services/train_service.py` — window-bound parsing and the
  event-window resolver, plus the final window filter.

Python `datetime` values are modelled as naive wall-clock records with
`Nat` fields; `datetime.strptime`/`strftime`/`fromisoformat` are modelled
as executable string parsers/printers mirroring CPython's behaviour
(documented at each definition).  Regular expressions from the source are
transcribed into a small backtracking engine (`RE`) whose alternation /
greediness semantics follow Python's `re` module; character classes are
modelled over the ASCII range (plus NBSP and the other whitespace
code-points that actually occur in the data), which is the range exercised
by the upstream text.
-/

namespace TrainTrack

/-! ## Characters and Python-style helpers -/

/-- Python `\s` (and `str.strip()` with no arguments), restricted to the
whitespace code-points relevant to the embedded text: the six ASCII
whitespace characters together with NEL (U+0085) and NBSP (U+00A0). -/
def pyWs (c : Char) : Bool :=
  c = ' ' || c = '\t' || c = '\n' || c = '\x0d' || c = '\x0b' || c = '\x0c' ||
  c = '\u0085' || c = '\u00A0'

/-- Digit value of an ASCII digit character. -/
def dval (c : Char) : Nat := c.toNat - 48

/-- Python `str.strip()` (no arguments): remove leading and trailing
whitespace. -/
def pyStrip (s : String) : String :=
  String.mk (((s.data.dropWhile pyWs).reverse.dropWhile pyWs).reverse)

/-- Python `str.strip(chars)`: remove leading and trailing characters drawn
from `chars`. -/
def pyStripChars (chars : String) (s : String) : String :=
  String.mk ((((s.data.dropWhile (chars.data.contains ·)).reverse.dropWhile
      (chars.data.contains ·))).reverse)

/-- Python `str.title()` on a string: alphabetic runs are capitalised
(first letter upper-cased, the rest lower-cased).  ASCII case mapping. -/
def pyTitleAux : List Char → Bool → List Char
  | [], _ => []
  | c :: rest, prevAlpha =>
    if c.isAlpha then
      (if prevAlpha then c.toLower else c.toUpper) :: pyTitleAux rest true
    else
      c :: pyTitleAux rest false

/-- Python `str.title()`. -/
def pyTitle (s : String) : String := String.mk (pyTitleAux s.data false)

/-! ## Naive datetimes, the proleptic Gregorian calendar -/

/-- A naive Python `datetime.datetime` (no timezone), seconds precision —
microseconds are always zero in this code base. -/
structure DateTime where
  year : Nat
  month : Nat
  day : Nat
  hour : Nat
  minute : Nat
  second : Nat
deriving DecidableEq, Repr

/-- A naive Python `datetime.time`, seconds precision. -/
structure Time where
  hour : Nat
  minute : Nat
  second : Nat
deriving DecidableEq, Repr

/-- Gregorian leap-year rule (as implemented by Python's `datetime`). -/
def isLeap (y : Nat) : Bool := y % 4 = 0 && (y % 100 ≠ 0 || y % 400 = 0)

/-- Number of days in a month of a given year (CPython's `_DAYS_IN_MONTH`
table plus the February leap-year rule). -/
def daysInMonth (y m : Nat) : Nat :=
  match m with
  | 1 => 31
  | 2 => if isLeap y then 29 else 28
  | 3 => 31
  | 4 => 30
  | 5 => 31
  | 6 => 30
  | 7 => 31
  | 8 => 31
  | 9 => 30
  | 10 => 31
  | 11 => 30
  | 12 => 31
  | _ => 0

/-- Python `datetime` validity: exactly the field ranges accepted by the
`datetime.datetime` constructor (year 1–9999, valid calendar day, in-range
time fields).  Every datetime produced by the embedded parsers is valid. -/
def DateTime.Valid (d : DateTime) : Prop :=
  1 ≤ d.year ∧ d.year ≤ 9999 ∧ 1 ≤ d.month ∧ d.month ≤ 12 ∧
  1 ≤ d.day ∧ d.day ≤ daysInMonth d.year d.month ∧
  d.hour ≤ 23 ∧ d.minute ≤ 59 ∧ d.second ≤ 59

instance (d : DateTime) : Decidable d.Valid := by
  unfold DateTime.Valid; infer_instance

/-- `time` validity (Python `datetime.time` constructor ranges). -/
def Time.Valid (t : Time) : Prop := t.hour ≤ 23 ∧ t.minute ≤ 59 ∧ t.second ≤ 59

instance (t : Time) : Decidable t.Valid := by
  unfold Time.Valid; infer_instance

/-- Order key.  For valid datetimes (`day < 32`, `month < 13`, in-range time
fields) this key is strictly monotone in the lexicographic field order, which
is exactly how Python compares two naive `datetime` objects. -/
def DateTime.key (d : DateTime) : Nat :=
  ((((d.year * 13 + d.month) * 32 + d.day) * 24 + d.hour) * 60 + d.minute) * 60
    + d.second

/-- Python `datetime.__lt__` on naive datetimes, via the order key. -/
def dtLt (a b : DateTime) : Bool := a.key < b.key

/-- Python `datetime.__le__` on naive datetimes, via the order key. -/
def dtLe (a b : DateTime) : Bool := a.key ≤ b.key

/-- `datetime.combine(d.date(), t)`: the calendar date of `d` with the
wall-clock time `t`. -/
def combine (d : DateTime) (t : Time) : DateTime :=
  ⟨d.year, d.month, d.day, t.hour, t.minute, t.second⟩

/-- The next calendar day (date successor), keeping the time of day.  This is
Python's `dt + timedelta(days=1)` for valid datetimes. -/
def addOneDay (d : DateTime) : DateTime :=
  if d.day + 1 ≤ daysInMonth d.year d.month then
    { d with day := d.day + 1 }
  else if d.month + 1 ≤ 12 then
    { d with month := d.month + 1, day := 1 }
  else
    { d with year := d.year + 1, month := 1, day := 1 }

/-- The previous calendar day, keeping the time of day (`dt -
timedelta(days=1)` for valid datetimes). -/
def subOneDay (d : DateTime) : DateTime :=
  if 2 ≤ d.day then { d with day := d.day - 1 }
  else if 2 ≤ d.month then
    { d with month := d.month - 1, day := daysInMonth d.year (d.month - 1) }
  else
    { d with year := d.year - 1, month := 12, day := daysInMonth (d.year - 1) 12 }

/-- `dt + timedelta(days=n)` for a signed day count (used only with small
counts arising from timezone conversion and the midnight-spanning rule). -/
def addDaysInt (d : DateTime) : Int → DateTime
  | Int.ofNat n => Nat.rec d (fun _ ih => addOneDay ih) n
  | Int.negSucc n => Nat.rec (subOneDay d) (fun _ ih => subOneDay ih) n

/-- `dt + timedelta(minutes=m)` for a signed minute count: adjust the time of
day and roll the date by the resulting day offset.  Used to model
`astimezone` conversions (offsets are strictly less than a day). -/
def addMinutes (d : DateTime) (m : Int) : DateTime :=
  let tot : Int := (d.hour * 60 + d.minute : Nat) + m
  let dayShift : Int := tot / 1440
  let rem : Int := tot % 1440
  let remN : Nat := rem.toNat
  addDaysInt { d with hour := remN / 60, minute := remN % 60 } dayShift

/-! ## Decimal rendering (Python `str(n)` and `%02d`) -/

/-- Fuel-driven digit expansion (structural recursion so that the kernel can
evaluate it; the fuel `n + 1` always suffices). -/
def natDigitsAux : Nat → Nat → List Char
  | 0, _ => []
  | fuel + 1, n =>
    if n < 10 then [Nat.digitChar n]
    else natDigitsAux fuel (n / 10) ++ [Nat.digitChar (n % 10)]

/-- The decimal digit characters of `n`, most significant first
(Python `str` of a non-negative `int`). -/
def natDigits (n : Nat) : List Char := natDigitsAux (n + 1) n

/-- Python `str(n)` for a non-negative integer. -/
def natRepr (n : Nat) : String := String.mk (natDigits n)

/-- Python `"%02d" % n`: zero-pad to two digits. -/
def pad2 (n : Nat) : String :=
  if n < 10 then String.mk ['0', Nat.digitChar n] else natRepr n

/-! ## Month names (`%b` of the C locale, used by CPython's `strptime`) -/

def monthAbbrsL : List (List Char) :=
  [['J','a','n'], ['F','e','b'], ['M','a','r'], ['A','p','r'],
   ['M','a','y'], ['J','u','n'], ['J','u','l'], ['A','u','g'],
   ['S','e','p'], ['O','c','t'], ['N','o','v'], ['D','e','c']]

/-- `strftime("%b")` for month number `m` (1-based). -/
def monthAbbr (m : Nat) : String := String.mk (monthAbbrsL.getD (m - 1) ['?','?','?'])

/-- Case-insensitive lookup of a three-letter month abbreviation
(`strptime` matches `%b` against the C-locale month names, ignoring case);
returns the 1-based month. -/
def monthFromAbbr (cs : List Char) : Option Nat :=
  let low := cs.map Char.toLower
  if low = ['j','a','n'] then some 1
  else if low = ['f','e','b'] then some 2
  else if low = ['m','a','r'] then some 3
  else if low = ['a','p','r'] then some 4
  else if low = ['m','a','y'] then some 5
  else if low = ['j','u','n'] then some 6
  else if low = ['j','u','l'] then some 7
  else if low = ['a','u','g'] then some 8
  else if low = ['s','e','p'] then some 9
  else if low = ['o','c','t'] then some 10
  else if low = ['n','o','v'] then some 11
  else if low = ['d','e','c'] then some 12
  else none

/-! ## `datetime.strptime(s, "%d-%b-%Y %H:%M")`

CPython compiles the format into one anchored regular expression:
`%d ↦ 3[01]|[12]\d|0[1-9]|[1-9]`, `%b ↦` the month-name alternation
(case-insensitive), `%Y ↦ \d{4}`, `%H ↦ 2[0-3]|[0-1]\d|\d`,
`%M ↦ [0-5]\d|\d`, literals in between, and the whole string must be
consumed.  On success `datetime.datetime` is constructed, which additionally
checks the day against the month length and `1 ≤ year ≤ 9999`.  The parser
below reproduces exactly that: one-or-two-digit fields are matched greedily
with backtracking against the following literal (digits and the literal
separators are disjoint, so the match is deterministic). -/

/-- `%d-`: one or two digits followed by the literal `-` (the two-digit form
is preferred, exactly as the compiled regex backtracks). -/
def parseDayDash : List Char → Option (Nat × List Char)
  | a :: b :: c :: rest =>
    if a.isDigit && b.isDigit && c = '-' then some (dval a * 10 + dval b, rest)
    else if a.isDigit && b = '-' then some (dval a, c :: rest)
    else none
  | [a, b] => if a.isDigit && b = '-' then some (dval a, ([] : List Char)) else none
  | _ => none

/-- `%b-`: three letters forming a month abbreviation (case-insensitive),
followed by the literal `-`. -/
def parseMonDash : List Char → Option (Nat × List Char)
  | m1 :: m2 :: m3 :: '-' :: rest =>
    match monthFromAbbr [m1, m2, m3] with
    | some m => some (m, rest)
    | none => none
  | _ => none

/-- `%Y ` : exactly four digits, then the literal space. -/
def parseYearSpace : List Char → Option (Nat × List Char)
  | a :: b :: c :: d :: ' ' :: rest =>
    if a.isDigit && b.isDigit && c.isDigit && d.isDigit then
      some (((dval a * 10 + dval b) * 10 + dval c) * 10 + dval d, rest)
    else none
  | _ => none

/-- `%H:`: one or two digits followed by the literal `:`. -/
def parseHourColon : List Char → Option (Nat × List Char)
  | a :: b :: c :: rest =>
    if a.isDigit && b.isDigit && c = ':' then some (dval a * 10 + dval b, rest)
    else if a.isDigit && b = ':' then some (dval a, c :: rest)
    else none
  | [a, b] => if a.isDigit && b = ':' then some (dval a, ([] : List Char)) else none
  | _ => none

/-- `%M` at the end of the string: exactly one or two digits remain. -/
def parseMin2End : List Char → Option Nat
  | [a, b] => if a.isDigit && b.isDigit then some (dval a * 10 + dval b) else none
  | [a] => if a.isDigit then some (dval a) else none
  | _ => none


def strptime_dmy_hm (s : String) : Option DateTime :=
  match parseDayDash s.data with
  | none => none
  | some (day, r1) =>
    if day = 0 || 31 < day then none
    else
      match parseMonDash r1 with
      | none => none
      | some (month, r2) =>
        match parseYearSpace r2 with
        | none => none
        | some (year, r3) =>
          match parseHourColon r3 with
          | none => none
          | some (hour, r4) =>
            if 23 < hour then none
            else
              match parseMin2End r4 with
              | none => none
              | some minute =>
                if 59 < minute then none
                else if year = 0 then none
                else if daysInMonth year month < day then none
                else some ⟨year, month, day, hour, minute, 0⟩

/-- `dt.strftime("%d-%b-%Y")`: two-digit day, month abbreviation, and the
year printed as a plain decimal number.  CPython delegates `%Y` to the
platform `strftime`; on the glibc systems this service targets the year is
*not* zero-padded (`datetime(500,1,15).strftime("%Y") == "500"`). -/
def strftime_dmbY (d : DateTime) : String :=
  pad2 d.day ++ "-" ++ monthAbbr d.month ++ "-" ++ natRepr d.year

example : strptime_dmy_hm "15-Jan-2026 10:00" = some ⟨2026, 1, 15, 10, 0, 0⟩ := by
  decide

example : strptime_dmy_hm "31-Feb-2026 10:00" = none := by decide

example : strptime_dmy_hm "5-jan-2026 9:05" = some ⟨2026, 1, 5, 9, 5, 0⟩ := by
  decide

example : strptime_dmy_hm "15-Jan-500 10:00" = none := by decide

example : strftime_dmbY ⟨2026, 1, 5, 10, 0, 0⟩ = "05-Jan-2026" := by decide

/-! ## A small backtracking regular-expression engine

The patterns in `train_helper.py` / `train_service.py` use only:
literals, single-character classes, `|`, `?`, greedy `*`/`+`/`{lo,hi}` over a
character class, lazy `+?`/`*?` over a character class, groups, `\b` and `$`.
The engine below implements exactly these constructs in continuation-passing
style, with Python's ordered-alternation and greediness semantics:
alternatives are tried left to right, greedy repetitions try the longest
count first, lazy ones the shortest, and a failing continuation backtracks
into earlier choice points.  `search` tries match start positions from the
left, as `re.search` does. -/

inductive RE where
  | lit (s : List Char) (ci : Bool)
  | cls (p : Char → Bool) (ci : Bool)
  | seq2 (a b : RE)
  | alt (a b : RE)
  | opt (a : RE)
  | star (p : Char → Bool) (ci : Bool)
  | plus (p : Char → Bool) (ci : Bool)
  | lazyPlus (p : Char → Bool) (ci : Bool)
  | lazyStar (p : Char → Bool) (ci : Bool)
  | repRange (p : Char → Bool) (ci : Bool) (lo hi : Nat)
  | group (idx : Nat) (a : RE)
  | wordB
  | eos

/-- Sequence a list of pattern pieces (empty literal is the unit). -/
def reSeq (xs : List RE) : RE := xs.foldr RE.seq2 (RE.lit [] false)

/-- ASCII lower-case code point of a character. -/
def lowerN (c : Char) : Nat :=
  if 65 ≤ c.toNat ∧ c.toNat ≤ 90 then c.toNat + 32 else c.toNat

/-- Case-insensitive character comparison (ASCII case folding, as Python's
`re.IGNORECASE` does on this data). -/
def chEq (ci : Bool) (a b : Char) : Bool :=
  if ci then lowerN a = lowerN b else a = b

/-- Class membership under `re.IGNORECASE`: the character or one of its case
variants belongs to the class. -/
def classMatch (ci : Bool) (p : Char → Bool) (c : Char) : Bool :=
  p c || (ci && (p c.toLower || p c.toUpper))

/-- Python `\w` (ASCII range): letters, digits, underscore. -/
def isWordChar (c : Char) : Bool := c.isAlphanum || c = '_'

/-- Match a literal at `pos`; returns the end position. -/
def litAt (input : List Char) (ci : Bool) : List Char → Nat → Option Nat
  | [], pos => some pos
  | c :: rest, pos =>
    match input.get? pos with
    | some d => if chEq ci c d then litAt input ci rest (pos + 1) else none
    | none => none

/-- Length of the maximal run of characters satisfying the class, from
`pos`. -/
def runLen (input : List Char) (pos : Nat) (q : Char → Bool) : Nat :=
  ((input.drop pos).takeWhile q).length

/-- Capture list: later entries shadow earlier ones (functional update). -/
abbrev Caps := List (Nat × String)

def setCap (i : Nat) (s : String) (caps : Caps) : Caps := (i, s) :: caps

def getCap (i : Nat) (caps : Caps) : Option String :=
  (caps.find? (fun x => x.1 = i)).map (·.2)

/-- `[lo, lo+1, …, n]` (empty when `n < lo`). -/
def upCounts (lo n : Nat) : List Nat :=
  if lo ≤ n then List.range' lo (n - lo + 1) else []

/-- Try the given repetition counts in order; each count advances `pos` by
that many characters before running the continuation. -/
def tryCounts (pos : Nat) (caps : Caps)
    (k : Nat → Caps → Option (Nat × Caps)) : List Nat → Option (Nat × Caps)
  | [] => none
  | c :: rest =>
    match k (pos + c) caps with
    | some r => some r
    | none => tryCounts pos caps k rest

/-- `\b`: the characters on the two sides of the position differ in
word-character status (a missing side counts as a non-word character). -/
def atWordBoundary (input : List Char) (pos : Nat) : Bool :=
  let lw := match (if pos = 0 then none else input.get? (pos - 1)) with
    | some c => isWordChar c
    | none => false
  let rw := match input.get? pos with
    | some c => isWordChar c
    | none => false
  lw ≠ rw

/-- The backtracking matcher.  `mrun input r pos caps k` attempts to match
`r` at `pos` and runs the continuation `k` on every candidate end position,
in Python's preference order, returning the first overall success. -/
def mrun (input : List Char) :
    RE → Nat → Caps → (Nat → Caps → Option (Nat × Caps)) → Option (Nat × Caps)
  | RE.lit s ci, pos, caps, k =>
    match litAt input ci s pos with
    | some p => k p caps
    | none => none
  | RE.cls p ci, pos, caps, k =>
    match input.get? pos with
    | some c => if classMatch ci p c then k (pos + 1) caps else none
    | none => none
  | RE.seq2 a b, pos, caps, k =>
    mrun input a pos caps (fun p c => mrun input b p c k)
  | RE.alt a b, pos, caps, k =>
    match mrun input a pos caps k with
    | some r => some r
    | none => mrun input b pos caps k
  | RE.opt a, pos, caps, k =>
    match mrun input a pos caps k with
    | some r => some r
    | none => k pos caps
  | RE.star p ci, pos, caps, k =>
    tryCounts pos caps k (upCounts 0 (runLen input pos (classMatch ci p))).reverse
  | RE.plus p ci, pos, caps, k =>
    tryCounts pos caps k (upCounts 1 (runLen input pos (classMatch ci p))).reverse
  | RE.lazyPlus p ci, pos, caps, k =>
    tryCounts pos caps k (upCounts 1 (runLen input pos (classMatch ci p)))
  | RE.lazyStar p ci, pos, caps, k =>
    tryCounts pos caps k (upCounts 0 (runLen input pos (classMatch ci p)))
  | RE.repRange p ci lo hi, pos, caps, k =>
    tryCounts pos caps k
      (upCounts lo (min (runLen input pos (classMatch ci p)) hi)).reverse
  | RE.group i a, pos, caps, k =>
    mrun input a pos caps
      (fun p c => k p (setCap i (String.mk ((input.drop pos).take (p - pos))) c))
  | RE.wordB, pos, caps, k =>
    if atWordBoundary input pos then k pos caps else none
  | RE.eos, pos, caps, k =>
    if pos = input.length then k pos caps
    else
      match input.get? pos with
      | some c => if c = '\n' && pos + 1 = input.length then k pos caps else none
      | none => none

/-- Result of a successful `re.search` / `re.match`. -/
structure RMatch where
  start : Nat
  stop : Nat
  caps : Caps
deriving Repr, DecidableEq

/-- `m.group(i)` (None for a group that did not participate). -/
def RMatch.group (m : RMatch) (i : Nat) : Option String := getCap i m.caps

/-- Attempt to match at a fixed position. -/
def matchAt (input : List Char) (r : RE) (pos : Nat) : Option (Nat × Caps) :=
  mrun input r pos [] (fun p c => some (p, c))

def searchAux (input : List Char) (r : RE) : Nat → Nat → Option RMatch
  | 0, _ => none
  | fuel + 1, pos =>
    match matchAt input r pos with
    | some (e, caps) => some ⟨pos, e, caps⟩
    | none => searchAux input r fuel (pos + 1)

/-- `re.search(r, s)`: try successive start positions from the left. -/
def reSearch (r : RE) (s : String) : Option RMatch :=
  searchAux s.data r (s.data.length + 1) 0

/-- `re.match(r, s)`: anchored at the start of the string. -/
def reMatch (r : RE) (s : String) : Option RMatch :=
  (matchAt s.data r 0).map (fun x => ⟨0, x.1, x.2⟩)

def subDelAux (input : List Char) (r : RE) : Nat → Nat → List Char
  | 0, pos => input.drop pos
  | fuel + 1, pos =>
    match searchAux input r (input.length + 1 - pos) pos with
    | some m =>
      if pos ≤ m.start && m.start < m.stop then
        ((input.drop pos).take (m.start - pos)) ++ subDelAux input r fuel m.stop
      else input.drop pos
    | none => input.drop pos

/-- `re.sub(r, "", s)` for patterns that cannot match the empty string:
delete every non-overlapping match, scanning from the left. -/
def reSubDel (r : RE) (s : String) : String :=
  String.mk (subDelAux s.data r (s.data.length + 1) 0)

/-- Ordered alternation of a list of branches (`a|b|c`). -/
def reAltList : List RE → RE
  | [] => RE.lit [] false
  | [x] => x
  | x :: rest => RE.alt x (reAltList rest)

/-! ## The concrete patterns of `train_helper.py` / `train_service.py` -/

/-- `[^()]` -/
def notParen (c : Char) : Bool := !(c = '(' || c = ')')

/-- `.` without `re.DOTALL`: any character except a newline. -/
def dotNoNl (c : Char) : Bool := c ≠ '\n'

/-- `[:\-\s]` -/
def delayJunk (c : Char) : Bool := c = ':' || c = '-' || pyWs c

/-- `[0-9:]` -/
def digitColon (c : Char) : Bool := c.isDigit || c = ':'

/-- `[A-Z0-9]` (the pattern is compiled with `re.I`, which is applied at the
match site via `classMatch`). -/
def upAlnum (c : Char) : Bool := c.isUpper || c.isDigit

/-- `\d{1,2}:\d{2}` -/
def timeTokRE : RE :=
  reSeq [RE.repRange Char.isDigit false 1 2, RE.lit [':'] false,
    RE.repRange Char.isDigit false 2 2]

/-- `\d{1,2}-[A-Za-z]{3}-\d{4}` -/
def dateFullRE : RE :=
  reSeq [RE.repRange Char.isDigit false 1 2, RE.lit ['-'] false,
    RE.repRange Char.isAlpha false 3 3, RE.lit ['-'] false,
    RE.repRange Char.isDigit false 4 4]

/-- `\d{1,2}-[A-Za-z]{3}(?:-\d{4})?` -/
def dateOptYearRE : RE :=
  reSeq [RE.repRange Char.isDigit false 1 2, RE.lit ['-'] false,
    RE.repRange Char.isAlpha false 3 3,
    RE.opt (reSeq [RE.lit ['-'] false, RE.repRange Char.isDigit false 4 4])]

/-- `Last Updates On\s*(?P<date>\d{1,2}-[A-Za-z]{3}-\d{4})(?:\s+(?P<time>\d{1,2}:\d{2}))?`
with `re.I`; group 1 = date, group 2 = time. -/
def luRE : RE :=
  reSeq [RE.lit "Last Updates On".data true, RE.star pyWs false,
    RE.group 1 dateFullRE,
    RE.opt (reSeq [RE.plus pyWs false, RE.group 2 timeTokRE])]

/-- `Start Date\s*:\s*(?P<date>\d{1,2}-[A-Za-z]{3}-\d{4})` with `re.I`. -/
def startDateRE : RE :=
  reSeq [RE.lit "Start Date".data true, RE.star pyWs false, RE.lit [':'] false,
    RE.star pyWs false, RE.group 1 dateFullRE]

/-- `\b(arrived|arrive|arriving|departed|depart|departure)\b` with `re.I`
(the per-line keyword gate before the tier matching). -/
def verbGateRE : RE :=
  reSeq [RE.wordB,
    RE.group 1 (reAltList
      [RE.lit "arrived".data true, RE.lit "arrive".data true,
       RE.lit "arriving".data true, RE.lit "departed".data true,
       RE.lit "depart".data true, RE.lit "departure".data true]),
    RE.wordB]

/-- `\b(Departed|Arrived)\b` with `re.I` (also the Tier C pattern). -/
def verbDA : RE := reAltList [RE.lit "Departed".data true, RE.lit "Arrived".data true]

/-- `Delay[:\-\s]*\(?\s*(?:Delay\s*)?([0-9:]{1,5})\)?` with `re.I`. -/
def delayRE : RE :=
  reSeq [RE.lit "Delay".data true, RE.star delayJunk false,
    RE.opt (RE.lit ['('] false), RE.star pyWs false,
    RE.opt (reSeq [RE.lit "Delay".data true, RE.star pyWs false]),
    RE.group 1 (RE.repRange digitColon false 1 5),
    RE.opt (RE.lit [')'] false)]

/-- Tier A:
`\b(Departed|Arrived)\b\s+(?:from|at)\s+(?P<station>[^()]+?)\s*\(\s*(?P<code>[A-Z0-9]{1,6})\s*\)`
with `re.I`; group 1 = verb, group 2 = station, group 3 = code. -/
def tierARE : RE :=
  reSeq [RE.wordB, RE.group 1 verbDA, RE.wordB, RE.plus pyWs false,
    reAltList [RE.lit "from".data true, RE.lit "at".data true],
    RE.plus pyWs false,
    RE.group 2 (RE.lazyPlus notParen false),
    RE.star pyWs false, RE.lit ['('] false, RE.star pyWs false,
    RE.group 3 (RE.repRange upAlnum true 1 6),
    RE.star pyWs false, RE.lit [')'] false]

/-- Tier B: `\b(Departed|Arrived)\b\s+(?:from|at)\s+(?P<station>.+?)\s+(?:at|on)\b`
with `re.I`; group 1 = verb, group 2 = station. -/
def tierBRE : RE :=
  reSeq [RE.wordB, RE.group 1 verbDA, RE.wordB, RE.plus pyWs false,
    reAltList [RE.lit "from".data true, RE.lit "at".data true],
    RE.plus pyWs false,
    RE.group 2 (RE.lazyPlus dotNoNl false),
    RE.plus pyWs false,
    reAltList [RE.lit "at".data true, RE.lit "on".data true], RE.wordB]

/-- `\b(on|at)\b$` with `re.I` (trailing stray token stripped from a Tier B
station). -/
def trailOnAtRE : RE :=
  reSeq [RE.wordB, RE.group 1 (reAltList [RE.lit "on".data true, RE.lit "at".data true]),
    RE.wordB, RE.eos]

/-- Tier C: `\b(Departed|Arrived)\b` with `re.I`. -/
def tierCRE : RE := reSeq [RE.wordB, RE.group 1 verbDA, RE.wordB]

/-- `(\d{1,2}:\d{2})` — first time token of a line. -/
def mtimeRE : RE := RE.group 1 timeTokRE

/-- `(\d{1,2}-[A-Za-z]{3}(?:-\d{4})?)` — first date token of a line. -/
def mdateRE : RE := RE.group 1 dateOptYearRE

/-- `re.match(r"\d{1,2}-[A-Za-z]{3}-\d{4}$", s)` — the full-date test inside
`_build_event_dt` (anchored at the start; `$` also admits one trailing
newline). -/
def fullDateAnchoredRE : RE :=
  reSeq [RE.repRange Char.isDigit false 1 2, RE.lit ['-'] false,
    RE.repRange Char.isAlpha false 3 3, RE.lit ['-'] false,
    RE.repRange Char.isDigit false 4 4, RE.eos]

/-! ## `train_helper.py`: anchor parsing and event building -/

/-- First time token `HH:MM` of a line (group 1 of `mtimeRE`). -/
def searchTimeTok (ln : String) : Option String :=
  (reSearch mtimeRE ln).bind (·.group 1)

/-- First date token `DD-Mon[-YYYY]` of a line (group 1 of `mdateRE`). -/
def searchDateTok (ln : String) : Option String :=
  (reSearch mdateRE ln).bind (·.group 1)

/-- The per-line candidates of `_parse_last_update_dt`: a successful regex
match whose date/time fragment also parses with
`strptime("%d-%b-%Y %H:%M")`; a line that fails either step contributes
nothing. -/
def luCandidates (lines : List String) : List DateTime :=
  lines.filterMap (fun ln =>
    (reSearch luRE ln).bind (fun m =>
      match m.group 1 with
      | some date => strptime_dmy_hm (date ++ " " ++ ((m.group 2).getD "00:00"))
      | none => none))

/-- Python `max(list)` over datetimes: fold keeping the current maximum
(a strictly greater element replaces it). -/
def pyMaxDT : List DateTime → Option DateTime
  | [] => none
  | x :: rest => some (rest.foldl (fun acc d => if dtLt acc d then d else acc) x)

/-- `_parse_last_update_dt`. -/
def parse_last_update_dt (lines : List String) : Option DateTime :=
  pyMaxDT (luCandidates lines)

/-- `_parse_start_date`: first line with a `Start Date : DD-Mon-YYYY` match,
returning the date string verbatim. -/
def parse_start_date (lines : List String) : Option String :=
  lines.findSome? (fun ln => (reSearch startDateRE ln).bind (·.group 1))

/-- The anchor branch of `_build_event_dt`: no date token, so reformat
`last_update_dt`'s date and re-parse it together with the time token. -/
def buildFromAnchor (tp : String) : Option DateTime → Option DateTime
  | some lu => strptime_dmy_hm (strftime_dmbY lu ++ " " ++ tp)
  | none => none

/-- `_build_event_dt(date_part=…, time_part=…, last_update_dt=…)`.
`nowYear` stands for `datetime.now().year`, used when a bare day-month
fragment has to be completed and no anchor exists.  Python's `or` treats an
empty string as missing, hence the explicit emptiness tests. -/
def build_event_dt (date_part time_part : Option String)
    (last_update_dt : Option DateTime) (nowYear : Nat) : Option DateTime :=
  let tp := match time_part with
    | some s => if s = "" then "00:00" else s
    | none => "00:00"
  match date_part with
  | some dp =>
    if dp = "" then buildFromAnchor tp last_update_dt
    else
      let ds := if (reMatch fullDateAnchoredRE dp).isSome then dp
        else
          dp ++ "-" ++ natRepr (match last_update_dt with
            | some lu => lu.year
            | none => nowYear)
      strptime_dmy_hm (ds ++ " " ++ tp)
  | none => buildFromAnchor tp last_update_dt

/-- A parsed event (the per-line dict of `parse_train_status_html`). -/
structure Event where
  raw : String
  type : Option String
  station : Option String
  code : Option String
  datetime : Option DateTime
  delay : Option String
deriving DecidableEq, Repr

/-- Python truthiness of a string. -/
def pyTruthy (s : String) : Bool := s ≠ ""

/-- The loop body of `parse_train_status_html` for one (already normalised)
line: the keyword gate, the delay extraction, and the three matching tiers in
priority order; at most one event per line. -/
def parseLine (last_update_dt : Option DateTime) (nowYear : Nat)
    (ln : String) : Option Event :=
  if (reSearch verbGateRE ln).isNone then none
  else
    let delay := (reSearch delayRE ln).bind (·.group 1)
    let evDt := build_event_dt (searchDateTok ln) (searchTimeTok ln)
      last_update_dt nowYear
    match reSearch tierARE ln with
    | some m =>
      let ty := pyTitle ((m.group 1).getD "")
      let station := pyStrip ((m.group 2).getD "")
      let code := pyStrip ((m.group 3).getD "")
      if pyTruthy ty && pyTruthy station then
        some ⟨ln, some ty, some station, some code, evDt, delay⟩
      else none
    | none =>
      match reSearch tierBRE ln with
      | some m =>
        let ty := pyTitle ((m.group 1).getD "")
        let station := pyStrip (reSubDel trailOnAtRE (pyStrip ((m.group 2).getD "")))
        if pyTruthy ty && pyTruthy station then
          some ⟨ln, some ty, some station, none, evDt, delay⟩
        else none
      | none =>
        match reSearch tierCRE ln with
        | some m =>
          let ty := pyTitle ((m.group 1).getD "")
          if evDt.isSome && pyTruthy ty then
            some ⟨ln, some ty, none, none, evDt, delay⟩
          else none
        | none => none

/-- Deduplication key: the triple `(type, station, datetime)`. -/
def evKey (e : Event) : Option String × Option String × Option DateTime :=
  (e.type, e.station, e.datetime)

/-- The dedup loop of `parse_train_status_html`: keep an event iff its key
was not seen before (first occurrence wins, order preserved). -/
def dedupAux (seen : List (Option String × Option String × Option DateTime)) :
    List Event → List Event
  | [] => []
  | e :: rest =>
    if seen.contains (evKey e) then dedupAux seen rest
    else e :: dedupAux (evKey e :: seen) rest

def dedupEvents (es : List Event) : List Event := dedupAux [] es

/-- Result record of `parse_train_status_html`. -/
structure ParseResult where
  start_date : Option String
  last_update : Option DateTime
  events : List Event
deriving Repr

/-- `parse_train_status_html` from the extracted-and-normalised lines
onwards: derive the anchor, parse every line, deduplicate. -/
def parseStatusLines (nowYear : Nat) (lines : List String) : ParseResult :=
  let lu := parse_last_update_dt lines
  ⟨parse_start_date lines, lu, dedupEvents (lines.filterMap (parseLine lu nowYear))⟩

example :
    parseLine none 2026 "Departed" = none := by decide

example : (reSearch tierARE "Departed from NEW DELHI (NDLS) at 10:30").map
    (fun m => (m.group 1, m.group 2, m.group 3)) =
    some (some "Departed", some "NEW DELHI", some "NDLS") := by decide
example : (reSearch tierARE "Departed from New Delhi (ndls)").map
    (fun m => (m.group 1, m.group 2, m.group 3)) =
    some (some "Departed", some "New Delhi", some "ndls") := by decide
example : (reSearch tierBRE "Departed from NEW DELHI (NDLS) at 10:30").map
    (fun m => (m.group 1, m.group 2)) =
    some (some "Departed", some "NEW DELHI (NDLS)") := by decide
example : (reSearch tierBRE "Departed from New Delhi (ndls)") = none := by decide
example : (reSearch tierARE "Departed at  (NDLS)").map
    (fun m => (m.group 2)) = some (some " ") := by decide
example : (reSearch tierARE "departure ARRIVED from X (AB2) something").map
    (fun m => (m.group 1, m.group 2, m.group 3)) =
    some (some "ARRIVED", some "X", some "AB2") := by decide
example : (reSearch tierARE "Departed from A B at 10:30 on 01-Jan") = none := by decide
example : (reSearch tierBRE "Departed from A B at 10:30 on 01-Jan").map
    (fun m => (m.group 2)) = some (some "A B") := by decide
example : pyTitle "DEPARTED" = "Departed" := by decide
example : reSubDel trailOnAtRE "A B at" = "A B " := by decide
example : (reSearch luRE "Last Updates On 15-Jan-2026 10:00").map
    (fun m => (m.group 1, m.group 2)) = some (some "15-Jan-2026", some "10:00") := by decide
example : searchDateTok "Arrived at X (AB) on 30-Dec 23:55" = some "30-Dec" := by decide
example : searchTimeTok "Arrived at X (AB) on 30-Dec 23:55" = some "23:55" := by decide

/-! ## `html.unescape` and `_clean_line`

`html.unescape` replaces every match of
`&(#[0-9]+;?|#[xX][0-9a-fA-F]+;?|[^\t\n\f <&#;]{1,32};?)` using the HTML5
reference table.  The embedding carries the entries of that table which can
occur in this service's data (the classic XML/HTML4 entities, with and
without the trailing semicolon exactly as in CPython's `html5` dict) and
CPython's longest-prefix fallback for names that are not in the table.
Numeric references are decoded to the corresponding scalar value (the
Windows-1252 remapping of C1 control references is outside the modelled
range). -/

/-- A character allowed inside an entity name: `[^\t\n\f <&#;]`. -/
def entNameChar (c : Char) : Bool :=
  !(c = '\t' || c = '\n' || c = '\x0c' || c = ' ' || c = '<' || c = '&' ||
    c = '#' || c = ';')

/-- The modelled fragment of CPython's `html5` entity dictionary. -/
def html5Table : List (String × String) :=
  [("amp;", "&"), ("amp", "&"), ("lt;", "<"), ("lt", "<"),
   ("gt;", ">"), ("gt", ">"), ("quot;", "\""), ("quot", "\""),
   ("apos;", "'"), ("nbsp;", "\u00A0"), ("nbsp", "\u00A0")]

def html5Lookup (s : String) : Option String :=
  (html5Table.find? (fun e => e.1 = s)).map (·.2)

/-- CPython's longest-prefix fallback: try `s[:x]` for `x = len-1, …, 2`. -/
def entPrefixLookup (s : String) : Nat → Option String
  | 0 => none
  | x + 1 =>
    if x + 1 < 2 then none
    else
      match html5Lookup (String.mk (s.data.take (x + 1))) with
      | some r => some (r ++ String.mk (s.data.drop (x + 1)))
      | none => entPrefixLookup s x

/-- `_replace_charref` for a named reference (the matched text `s` includes
the optional trailing semicolon). -/
def resolveEntity (s : String) : String :=
  match html5Lookup s with
  | some r => r
  | none =>
    match entPrefixLookup s (s.data.length - 1) with
    | some r => r
    | none => "&" ++ s

/-- Decode a numeric character reference value. -/
def charrefChar (v : Nat) : List Char :=
  if v = 0 || (0xD800 ≤ v ∧ v ≤ 0xDFFF) || 0x10FFFF < v then ['\uFFFD']
  else [Char.ofNat v]

def hexVal (c : Char) : Nat :=
  if c.isDigit then dval c
  else if 'a' ≤ c ∧ c ≤ 'f' then c.toNat - 87
  else c.toNat - 55

def isHexDigitC (c : Char) : Bool :=
  c.isDigit || ('a' ≤ c ∧ c ≤ 'f') || ('A' ≤ c ∧ c ≤ 'F')

/-- Parse one character reference after a `&`; returns the replacement text
and the remaining input, or `none` when the reference regex does not match
here. -/
def parseCharref (l : List Char) : Option (List Char × List Char) :=
  match l with
  | '#' :: rest =>
    match rest with
    | c :: rest2 =>
      if c = 'x' || c = 'X' then
        let ds := rest2.takeWhile isHexDigitC
        if ds.isEmpty then none
        else
          let rest3 := rest2.drop ds.length
          let rest4 := if rest3.head? = some ';' then rest3.tail else rest3
          some (charrefChar (ds.foldl (fun a c => a * 16 + hexVal c) 0), rest4)
      else
        let ds := rest.takeWhile Char.isDigit
        if ds.isEmpty then none
        else
          let rest3 := rest.drop ds.length
          let rest4 := if rest3.head? = some ';' then rest3.tail else rest3
          some (charrefChar (ds.foldl (fun a c => a * 10 + dval c) 0), rest4)
    | [] => none
  | _ =>
    let run := (l.takeWhile entNameChar).take 32
    if run.isEmpty then none
    else
      let rest := l.drop run.length
      let hasSemi := rest.head? = some ';'
      let s := String.mk (run ++ if hasSemi then [';'] else [])
      some ((resolveEntity s).data, if hasSemi then rest.tail else rest)

def unescapeAux : Nat → List Char → List Char
  | 0, l => l
  | fuel + 1, l =>
    match l with
    | [] => []
    | '&' :: rest =>
      match parseCharref rest with
      | some (repl, rest2) => repl ++ unescapeAux fuel rest2
      | none => '&' :: unescapeAux fuel rest
    | c :: rest => c :: unescapeAux fuel rest

/-- `html.unescape`. -/
def pyUnescape (s : String) : String :=
  String.mk (unescapeAux (s.data.length + 1) s.data)

/-- `re.sub(r"\s+", " ", line)`: replace each maximal whitespace run by a
single space (leftmost-longest, which is what the greedy `\s+` yields). -/
def collapseAux : Nat → List Char → List Char
  | 0, l => l
  | fuel + 1, l =>
    match l with
    | [] => []
    | c :: rest =>
      if pyWs c then ' ' :: collapseAux fuel (rest.dropWhile pyWs)
      else c :: collapseAux fuel rest

def collapseWs (s : String) : String :=
  String.mk (collapseAux (s.data.length + 1) s.data)

/-- `re.sub(r"Last Updates On(?=\d)", "Last Updates On ", line)`: insert a
space after the literal when a digit follows immediately (the lookahead is
not consumed; scanning resumes after the literal, as `re.sub` does). -/
def glueAux : Nat → List Char → List Char
  | 0, l => l
  | fuel + 1, l =>
    match l with
    | [] => []
    | c :: rest =>
      if l.take 15 = "Last Updates On".data
          && (l.get? 15).elim false Char.isDigit then
        "Last Updates On ".data ++ glueAux fuel (l.drop 15)
      else c :: glueAux fuel rest

def glueFix (s : String) : String :=
  String.mk (glueAux (s.data.length + 1) s.data)

/-- `_clean_line`: entity decoding, NBSP replacement, whitespace collapsing,
the glued-label fix, and a final `strip(" \t\n\r\u00A0")`. -/
def clean_line (line : String) : String :=
  let l1 := pyUnescape line
  let l2 := String.mk (l1.data.map (fun c => if c = '\u00A0' then ' ' else c))
  let l3 := collapseWs l2
  let l4 := glueFix l3
  pyStripChars " \t\n\x0d\u00A0" l4

example : pyUnescape "&amp;amp;" = "&amp;" := by decide
example : pyUnescape "&amp;" = "&" := by decide
example : clean_line "Last Updates On15-Jan-2026 10:00" =
    "Last Updates On 15-Jan-2026 10:00" := by decide

/-! ## `train_service.py`: window-bound parsing and the window resolver

`time.fromisoformat` / `datetime.fromisoformat` are modelled on the CPython
(3.11+) ISO parser restricted to the forms relevant here:
`HH[:MM[:SS[.f{1,6}]]][±HH[:MM]|±HHMM]` for times and
`YYYY-MM-DD[<sep><time>]` for datetimes (any single separator, as CPython
accepts).  A time-only string may carry a UTC offset, in which case the
parsed `time` is offset-aware — `_parse_bound` returns it **without**
normalising it, unlike the datetime branch, which goes through
`_normalize_dt`.  Fractional second digits are validated (1–6 digits after
`.` or `,`) but truncated to whole seconds: no claim depends on sub-second
values.  Offsets with a seconds component and the exotic ISO date forms
(ordinal/week dates, `YYYYMMDD`) are outside the modelled grammar.  The host
timezone is a fixed UTC offset `loff` in minutes
(`datetime.now().astimezone().tzinfo` always yields a concrete offset, so
the `local_tz is None` fallback in `_normalize_dt` is dead code).

Python compares two naive datetimes field-wise and two aware datetimes by
the instant they denote (`toordinal`-based), and **raises `TypeError`** when
one is naive and the other aware — the comparison outcome is therefore an
`Option Bool` (`none` = `TypeError`), and the resolver an
`Except PyError …`. -/

def d2 (a b : Char) : Nat := dval a * 10 + dval b

/-- The `HH[:MM[:SS[.ffffff]]]` time-of-day grammar: hour, minute and second
fields with range checks; an optional fractional-second part (1–6 digits
after `.` or `,`) is validated and truncated to whole seconds. -/
def parseHMS (l : List Char) : Option Time :=
  match l with
  | [h1, h2] =>
    if h1.isDigit && h2.isDigit && d2 h1 h2 ≤ 23 then some ⟨d2 h1 h2, 0, 0⟩
    else none
  | [h1, h2, ':', m1, m2] =>
    if h1.isDigit && h2.isDigit && m1.isDigit && m2.isDigit
        && d2 h1 h2 ≤ 23 && d2 m1 m2 ≤ 59 then
      some ⟨d2 h1 h2, d2 m1 m2, 0⟩
    else none
  | h1 :: h2 :: ':' :: m1 :: m2 :: ':' :: s1 :: s2 :: rest =>
    if h1.isDigit && h2.isDigit && m1.isDigit && m2.isDigit && s1.isDigit
        && s2.isDigit && d2 h1 h2 ≤ 23 && d2 m1 m2 ≤ 59 && d2 s1 s2 ≤ 59 then
      match rest with
      | [] => some ⟨d2 h1 h2, d2 m1 m2, d2 s1 s2⟩
      | sep :: frac =>
        if (sep = '.' || sep = ',') && !frac.isEmpty && frac.length ≤ 6
            && frac.all Char.isDigit then
          some ⟨d2 h1 h2, d2 m1 m2, d2 s1 s2⟩
        else none
    else none
  | _ => none

/-- A time-of-day followed by an optional `±HH[:MM]`/`±HHMM` UTC offset
(returned in minutes). -/
def parseTimeOffset (t : List Char) : Option (Time × Option Int) :=
  let tpart := t.takeWhile (fun c => !(c = '+' || c = '-'))
  let opart := t.drop tpart.length
  match parseHMS tpart with
  | none => none
  | some tm =>
    match opart with
    | [] => some (tm, none)
    | sgn :: o =>
      match (match o with
        | [o1, o2] =>
          if o1.isDigit && o2.isDigit && d2 o1 o2 ≤ 23 then
            some (d2 o1 o2 * 60)
          else none
        | [o1, o2, o3, o4] =>
          if o1.isDigit && o2.isDigit && o3.isDigit && o4.isDigit
              && d2 o1 o2 ≤ 23 && d2 o3 o4 ≤ 59 then
            some (d2 o1 o2 * 60 + d2 o3 o4)
          else none
        | [o1, o2, ':', o3, o4] =>
          if o1.isDigit && o2.isDigit && o3.isDigit && o4.isDigit
              && d2 o1 o2 ≤ 23 && d2 o3 o4 ≤ 59 then
            some (d2 o1 o2 * 60 + d2 o3 o4)
          else none
        | _ => none : Option Nat) with
      | none => none
      | some v => some (tm, some (if sgn = '-' then -(v : Int) else (v : Int)))

/-- `datetime.time.fromisoformat`: a time-of-day with an optional UTC
offset; an offset-suffixed string yields an **aware** time. -/
def time_fromisoformat (s : String) : Option (Time × Option Int) :=
  parseTimeOffset s.data

/-- `datetime.datetime.fromisoformat` on the
`YYYY-MM-DD[<sep>HH:MM[:SS][±HH:MM]]` grammar (any single separator
character, as CPython accepts). -/
def datetime_fromisoformat (s : String) : Option (DateTime × Option Int) :=
  match s.data with
  | y1 :: y2 :: y3 :: y4 :: '-' :: mo1 :: mo2 :: '-' :: dd1 :: dd2 :: rest =>
    if y1.isDigit && y2.isDigit && y3.isDigit && y4.isDigit && mo1.isDigit
        && mo2.isDigit && dd1.isDigit && dd2.isDigit then
      let y := (d2 y1 y2) * 100 + d2 y3 y4
      let mo := d2 mo1 mo2
      let dd := d2 dd1 dd2
      if y = 0 || mo = 0 || 12 < mo || dd = 0 || daysInMonth y mo < dd then none
      else
        match rest with
        | [] => some (⟨y, mo, dd, 0, 0, 0⟩, none)
        | _sep :: t =>
          match parseTimeOffset t with
          | some (tm, off) => some (combine ⟨y, mo, dd, 0, 0, 0⟩ tm, off)
          | none => none
    else none
  | _ => none

deriving instance DecidableEq for Except

/-- The `HTTPException` raised by `_parse_bound` (status and detail). -/
structure HTTPError where
  status : Nat
  detail : String
deriving DecidableEq, Repr

/-- The 422 error for an invalid bound, carrying the raw value and the two
accepted formats. -/
def invalidBoundError (raw : String) : HTTPError :=
  ⟨422, "Invalid time format: '" ++ raw ++
    "'. Use HH:MM[:SS] or ISO datetime (e.g. 2026-01-01T10:30:00 or 2026-01-01T10:30:00Z)."⟩

/-- `_normalize_dt`: naive datetimes pass through; aware ones are converted
to the host's local wall clock and the offset dropped
(`dt.astimezone(local_tz).replace(tzinfo=None)`). -/
def normalize_dt (dt : DateTime) (off : Option Int) (loff : Int) : DateTime :=
  match off with
  | none => dt
  | some o => addMinutes dt (loff - o)

/-- The string actually handed to the ISO parsers by `_parse_bound`: the
stripped raw value, with a trailing `Z` rewritten to the `+00:00` UTC
offset. -/
def boundCandidate (raw : String) : String :=
  let s := pyStrip raw
  if s.data.getLast? = some 'Z' then String.mk (s.data.dropLast ++ "+00:00".data)
  else s

/-- `_parse_bound`: strip, rewrite a trailing `Z` to `+00:00`, try the full
datetime parse (normalised to local naive time), then the time-only parse —
whose result is returned **unnormalised**, offset and all — else raise the
422 error. -/
def parse_bound (raw : String) (loff : Int) :
    Except HTTPError (Option DateTime × Option (Time × Option Int)) :=
  match datetime_fromisoformat (boundCandidate raw) with
  | some (dt, off) => .ok (some (normalize_dt dt off loff), none)
  | none =>
    match time_fromisoformat (boundCandidate raw) with
    | some t => .ok (none, some t)
    | none => .error (invalidBoundError raw)

/-- Midnight of `now`'s calendar day (`datetime.combine(today, time(0,0,0))`). -/
def midnightOf (now : DateTime) : DateTime := ⟨now.year, now.month, now.day, 0, 0, 0⟩

/-- The `base_date` of `_compute_event_window`: the date of the bound that
carried an explicit datetime (start preferred), else today.  Only the date
fields are used (via `combine`). -/
def windowBaseDate (sdt edt : Option DateTime) (now : DateTime) : DateTime :=
  match sdt with
  | some d => d
  | none => match edt with
    | some d => d
    | none => now

/-- Days before year `y` in the proleptic Gregorian calendar (CPython's
`_days_before_year`). -/
def daysBeforeYear (y : Nat) : Nat :=
  (y - 1) * 365 + (y - 1) / 4 - (y - 1) / 100 + (y - 1) / 400

/-- Days in the months of `y` strictly before month `m`. -/
def daysInMonthsBelow (y : Nat) : Nat → Nat
  | 0 => 0
  | m + 1 => daysInMonthsBelow y m + daysInMonth y m

/-- CPython's `date.toordinal` (day 1 = 0001-01-01). -/
def toOrdinal (d : DateTime) : Nat :=
  daysBeforeYear d.year + daysInMonthsBelow d.year d.month + d.day

/-- The instant an offset-aware datetime denotes, in seconds on the
proleptic-Gregorian timeline (`off` in minutes subtracted, as Python does
when comparing aware datetimes). -/
def instSecs (d : DateTime) (off : Int) : Int :=
  ((toOrdinal d * 86400 + d.hour * 3600 + d.minute * 60 + d.second : Nat) : Int)
    - off * 60

/-- Python's `<` on two possibly-aware datetimes: field order for two naive
values, instant order for two aware values, and `none` (a `TypeError`) for
a naive/aware mix. -/
def awLtB (a b : DateTime × Option Int) : Option Bool :=
  match a.2, b.2 with
  | none, none => some (dtLt a.1 b.1)
  | some oa, some ob => some (decide (instSecs a.1 oa < instSecs b.1 ob))
  | _, _ => none

/-- An error escaping `_compute_event_window`: the 422 `HTTPException` from
`_parse_bound`, or the `TypeError` a naive/aware comparison raises. -/
inductive PyError where
  | http (e : HTTPError)
  | typeError
deriving DecidableEq, Repr

/-- `_to_datetime`: an explicit (already normalised, naive) datetime wins; a
bare time — possibly aware — is anchored to `base_date` (`datetime.combine`
keeps the time's `tzinfo`); otherwise the naive `now`. -/
def to_datetime (base_date now : DateTime)
    (dtp : Option DateTime) (tp : Option (Time × Option Int)) :
    DateTime × Option Int :=
  match dtp with
  | some d => (d, none)
  | none => match tp with
    | some t => (combine base_date t.1, t.2)
    | none => (now, none)

/-- `_compute_event_window`: parse the provided bounds (start first, so its
error wins when both are invalid), then resolve per the decision table of
the source; every `end_dt < start_dt` comparison of a naive against an
aware datetime raises `TypeError`. -/
def compute_event_window (startRaw endRaw : Option String) (now : DateTime)
    (loff : Int) :
    Except PyError ((DateTime × Option Int) × (DateTime × Option Int)) :=
  match (match startRaw with
    | some r => parse_bound r loff
    | none => .ok (none, none)) with
  | .error err => .error (.http err)
  | .ok (sdt, st) =>
    match (match endRaw with
      | some r => parse_bound r loff
      | none => .ok (none, none)) with
    | .error err => .error (.http err)
    | .ok (edt, et) =>
      match startRaw, endRaw with
      | none, none =>
        let m := midnightOf now
        .ok ((m, none), (addOneDay m, none))
      | none, some _ =>
        let start_dt := ((now, none) : DateTime × Option Int)
        let end_dt := to_datetime (windowBaseDate sdt edt now) now edt et
        match awLtB end_dt start_dt with
        | none => .error .typeError
        | some true => .ok (end_dt, start_dt)
        | some false => .ok (start_dt, end_dt)
      | some _, none =>
        let start_dt := to_datetime (windowBaseDate sdt edt now) now sdt st
        let end_dt := ((now, none) : DateTime × Option Int)
        match awLtB end_dt start_dt with
        | none => .error .typeError
        | some true => .ok (end_dt, start_dt)
        | some false => .ok (start_dt, end_dt)
      | some _, some _ =>
        let start_dt := to_datetime (windowBaseDate sdt edt now) now sdt st
        let end_dt := to_datetime (windowBaseDate sdt edt now) now edt et
        match awLtB end_dt start_dt with
        | none => .error .typeError
        | some true =>
          if sdt = none && edt = none && st.isSome && et.isSome then
            .ok (start_dt, (addOneDay end_dt.1, end_dt.2))
          else
            .ok (end_dt, start_dt)
        | some false => .ok (start_dt, end_dt)

/-- The final filter of `get_train_status`: keep an event iff its timestamp
is present and `window_start <= e.datetime < window_end`. -/
def filter_events_window (window_start window_end : DateTime)
    (events : List Event) : List Event :=
  events.filter (fun e =>
    match e.datetime with
    | some d => dtLe window_start d && dtLt d window_end
    | none => false)

example :
    compute_event_window (some "09:00") (some "08:00") ⟨2026, 3, 10, 12, 0, 0⟩ 330 =
    .ok ((⟨2026, 3, 10, 9, 0, 0⟩, none), (⟨2026, 3, 11, 8, 0, 0⟩, none)) := by
  decide

example :
    parse_bound "2026-01-01T10:30:00Z" 330 =
    .ok (some ⟨2026, 1, 1, 16, 0, 0⟩, none) := by decide

example :
    parse_bound "garbage" 0 = .error (invalidBoundError "garbage") := by decide

example :
    parse_bound "10:30Z" 330 = .ok (none, some (⟨10, 30, 0⟩, some 0)) := by
  decide

example :
    parse_bound "10:30+05:30" 0 = .ok (none, some (⟨10, 30, 0⟩, some 330)) := by
  decide

example :
    parse_bound "2026-01-01T10:30:00.5" 0 =
    .ok (some ⟨2026, 1, 1, 10, 30, 0⟩, none) := by decide

example : time_fromisoformat "10" = some (⟨10, 0, 0⟩, none) := by decide

example : time_fromisoformat "10:30:00,25+0530" =
    some (⟨10, 30, 0⟩, some 330) := by decide

example :
    compute_event_window (some "10:30Z") none ⟨2026, 3, 10, 12, 0, 0⟩ 330 =
    .error .typeError := by decide

/-! ## Deduplication lemmas -/

theorem contains_iff_mem {α} [BEq α] [LawfulBEq α] {l : List α} {a : α} :
    l.contains a = true ↔ a ∈ l := by
  unfold List.contains
  exact List.elem_iff

theorem dedupAux_sublist (es : List Event) :
    ∀ seen, (dedupAux seen es).Sublist es := by
  induction es with
  | nil => intro seen; exact .slnil
  | cons x rest ih =>
    intro seen
    unfold dedupAux
    split
    · exact (ih seen).cons x
    · exact (ih (evKey x :: seen)).cons₂ x

theorem mem_dedupAux_not_seen (es : List Event) :
    ∀ seen e, e ∈ dedupAux seen es → evKey e ∉ seen := by
  induction es with
  | nil => intro seen e h; simp [dedupAux] at h
  | cons x rest ih =>
    intro seen e h
    unfold dedupAux at h
    split at h
    · exact ih seen e h
    · rename_i hc
      rcases List.mem_cons.mp h with rfl | hm
      · intro hmem
        exact hc (contains_iff_mem.mpr hmem)
      · intro hmem
        exact (ih _ e hm) (List.mem_cons_of_mem _ hmem)

theorem dedupAux_pairwise (es : List Event) :
    ∀ seen, List.Pairwise (fun a b => evKey a ≠ evKey b) (dedupAux seen es) := by
  induction es with
  | nil => intro seen; simp [dedupAux]
  | cons x rest ih =>
    intro seen
    unfold dedupAux
    split
    · exact ih seen
    · refine List.Pairwise.cons (fun b hb hkey => ?_) (ih _)
      exact (mem_dedupAux_not_seen rest _ b hb) (by simp [hkey])

theorem dedupAux_find? (es : List Event) :
    ∀ seen e, e ∈ dedupAux seen es →
      es.find? (fun x => decide (evKey x = evKey e)) = some e := by
  induction es with
  | nil => intro seen e h; simp [dedupAux] at h
  | cons x rest ih =>
    intro seen e h
    unfold dedupAux at h
    split at h
    · rename_i hc
      have hne : evKey x ≠ evKey e := by
        intro hk
        exact (mem_dedupAux_not_seen rest seen e h)
          (by rw [← hk]; exact contains_iff_mem.mp hc)
      rw [List.find?_cons_of_neg _ (by simpa using hne)]
      exact ih seen e h
    · rcases List.mem_cons.mp h with rfl | hm
      · rw [List.find?_cons_of_pos _ (by simp)]
      · have hne : evKey x ≠ evKey e := by
          intro hk
          exact (mem_dedupAux_not_seen rest _ e hm) (by simp [hk])
        rw [List.find?_cons_of_neg _ (by simpa using hne)]
        exact ih _ e hm

theorem dedupAux_covers (es : List Event) :
    ∀ seen e, e ∈ es → evKey e ∉ seen →
      ∃ e', e' ∈ dedupAux seen es ∧ evKey e' = evKey e := by
  induction es with
  | nil => intro seen e h; simp at h
  | cons x rest ih =>
    intro seen e h hseen
    unfold dedupAux
    rcases List.mem_cons.mp h with rfl | hm
    · split
      · rename_i hc
        exact absurd (contains_iff_mem.mp hc) hseen
      · exact ⟨_, List.mem_cons_self _ _, rfl⟩
    · split
      · rename_i hc
        exact ih seen e hm hseen
      · by_cases hk : evKey e = evKey x
        · exact ⟨x, List.mem_cons_self x _, hk.symm⟩
        · obtain ⟨e', he', hkey⟩ := ih (evKey x :: seen) e hm
            (by
              intro hmem
              rcases List.mem_cons.mp hmem with h1 | h2
              · exact hk h1
              · exact hseen h2)
          exact ⟨e', List.mem_cons_of_mem _ he', hkey⟩

/-- C6: the returned event list is deduplicated by the triple
`(type, station, timestamp)`: it is a subsequence of the parsed events
(original relative order), no two surviving events share a key, every
surviving event is the *first* event with its key, and every parsed event's
key is represented by a survivor (so a later event agreeing on the triple is
dropped even if `raw`, `code` or `delay` differ — the key inspects only the
triple). -/
theorem C6_dedup_key (es : List Event) :
    (dedupEvents es).Sublist es ∧
    List.Pairwise (fun a b => evKey a ≠ evKey b) (dedupEvents es) ∧
    (∀ e ∈ dedupEvents es,
      es.find? (fun x => decide (evKey x = evKey e)) = some e) ∧
    (∀ e ∈ es, ∃ e', e' ∈ dedupEvents es ∧ evKey e' = evKey e) :=
  ⟨dedupAux_sublist es [], dedupAux_pairwise es [],
   fun e he => dedupAux_find? es [] e he,
   fun e he => dedupAux_covers es [] e he (by simp)⟩

/-- Witness for `C6_dedup_key`: two events agreeing on the key triple but
differing in `raw` and `delay`; the first occurrence survives, the later
duplicate is dropped. -/
theorem C6_dedup_key_witness :
    dedupEvents
        [⟨"l1", some "Departed", some "X", none, none, none⟩,
         ⟨"l2", some "Departed", some "X", none, none, some "00:10"⟩] =
      [⟨"l1", some "Departed", some "X", none, none, none⟩] ∧
    [(⟨"l1", some "Departed", some "X", none, none, none⟩ : Event),
     ⟨"l2", some "Departed", some "X", none, none, some "00:10"⟩].find?
        (fun x => decide (evKey x = evKey ⟨"l1", some "Departed", some "X", none, none, none⟩)) =
      some ⟨"l1", some "Departed", some "X", none, none, none⟩ := by
  refine ⟨by decide, ?_⟩
  exact (C6_dedup_key _).2.2.1 _ (by decide)

/-- C7: an event survives the final window filter iff its timestamp is
present and lies in the half-open window `[window_start, window_end)`;
events with an absent timestamp are always excluded. -/
theorem C7_window_filter (ws we : DateTime) (es : List Event) (e : Event) :
    e ∈ filter_events_window ws we es ↔
      e ∈ es ∧ ∃ d, e.datetime = some d ∧ dtLe ws d = true ∧ dtLt d we = true := by
  unfold filter_events_window
  rw [List.mem_filter]
  cases h : e.datetime with
  | none => simp [h]
  | some d => simp [h, Bool.and_eq_true]

/-! ## Window-resolver lemmas -/

theorem parse_bound_error_eq (raw : String) (loff : Int) (err : HTTPError)
    (h : parse_bound raw loff = .error err) : err = invalidBoundError raw := by
  unfold parse_bound at h
  cases hd : datetime_fromisoformat (boundCandidate raw) with
  | some v =>
    rw [hd] at h
    exact absurd h (by simp)
  | none =>
    rw [hd] at h
    cases ht : time_fromisoformat (boundCandidate raw) with
    | some t => rw [ht] at h; exact absurd h (by simp)
    | none => rw [ht] at h; exact (Except.error.injEq _ _).mp h.symm

theorem parseHMS_valid (l : List Char) (t : Time)
    (h : parseHMS l = some t) : t.Valid := by
  unfold parseHMS at h
  split at h
  · split_ifs at h with hc
    obtain rfl := (Option.some.injEq _ _).mp h
    simp only [Bool.and_eq_true, decide_eq_true_eq] at hc
    unfold Time.Valid
    dsimp only
    omega
  · split_ifs at h with hc
    obtain rfl := (Option.some.injEq _ _).mp h
    simp only [Bool.and_eq_true, decide_eq_true_eq] at hc
    unfold Time.Valid
    dsimp only
    omega
  · split_ifs at h with hc
    · split at h
      · obtain rfl := (Option.some.injEq _ _).mp h
        simp only [Bool.and_eq_true, decide_eq_true_eq] at hc
        unfold Time.Valid
        dsimp only
        omega
      · split_ifs at h with hf
        obtain rfl := (Option.some.injEq _ _).mp h
        simp only [Bool.and_eq_true, decide_eq_true_eq] at hc
        unfold Time.Valid
        dsimp only
        omega
  · simp at h

theorem parseTimeOffset_valid (l : List Char) (t : Time) (off : Option Int)
    (h : parseTimeOffset l = some (t, off)) : t.Valid := by
  unfold parseTimeOffset at h
  dsimp only at h
  cases hp : parseHMS (l.takeWhile (fun c => !(c = '+' || c = '-'))) with
  | none => rw [hp] at h; simp at h
  | some tm =>
    rw [hp] at h
    have hv := parseHMS_valid _ _ hp
    dsimp only at h
    split at h
    · have := (Option.some.injEq _ _).mp h
      rw [Prod.mk.injEq] at this
      exact this.1 ▸ hv
    · split at h
      · simp at h
      · have := (Option.some.injEq _ _).mp h
        rw [Prod.mk.injEq] at this
        exact this.1 ▸ hv

theorem time_fromisoformat_valid (s : String) (t : Time) (off : Option Int)
    (h : time_fromisoformat s = some (t, off)) : t.Valid :=
  parseTimeOffset_valid s.data t off h

theorem parse_bound_time_valid (raw : String) (loff : Int)
    (t : Time × Option Int)
    (h : parse_bound raw loff = .ok (none, some t)) : t.1.Valid := by
  unfold parse_bound at h
  cases hd : datetime_fromisoformat (boundCandidate raw) with
  | some v =>
    rw [hd] at h
    obtain ⟨dt, off⟩ := v
    simp at h
  | none =>
    rw [hd] at h
    cases ht : time_fromisoformat (boundCandidate raw) with
    | some t' =>
      rw [ht] at h
      obtain rfl : t' = t := by simpa using h
      exact time_fromisoformat_valid _ _ _ ht
    | none => rw [ht] at h; simp at h

theorem awLtB_none_none (a b : DateTime × Option Int) (ha : a.2 = none)
    (hb : b.2 = none) : awLtB a b = some (dtLt a.1 b.1) := by
  obtain ⟨a1, a2⟩ := a
  obtain ⟨b1, b2⟩ := b
  dsimp only at ha hb ⊢
  subst ha
  subst hb
  rfl

/-- C4 (code bug): the 422 validation error is raised **iff** both the full
datetime parse and the time-only parse of the stripped, `Z`-rewritten
candidate fail, and it carries the offending raw value and the two accepted
formats; an offset-carrying *datetime* parse is converted to local naive
wall-clock time.  But the claim's "this is the only error the resolver
surfaces" clause is false of the code: a time-only bound with a UTC offset
(e.g. `"10:30Z"`, rewritten to `"10:30+00:00"`) parses successfully into an
**aware** time which `_parse_bound` never normalises, and the resolver's
`end_dt < start_dt` comparison of the resulting aware datetime against the
naive `now` raises an unhandled `TypeError` — a non-422 error escaping
`_compute_event_window`. -/
theorem C4_bound_errors (raw : String) (loff : Int) :
    (∀ err, parse_bound raw loff = .error err ↔
      (datetime_fromisoformat (boundCandidate raw) = none ∧
       time_fromisoformat (boundCandidate raw) = none ∧
       err = invalidBoundError raw)) ∧
    ((invalidBoundError raw).status = 422 ∧
      (invalidBoundError raw).detail = "Invalid time format: '" ++ raw ++
        "'. Use HH:MM[:SS] or ISO datetime (e.g. 2026-01-01T10:30:00 or 2026-01-01T10:30:00Z).") ∧
    (∀ dt off, datetime_fromisoformat (boundCandidate raw) = some (dt, some off) →
      parse_bound raw loff = .ok (some (addMinutes dt (loff - off)), none)) ∧
    parse_bound "10:30Z" loff = .ok (none, some (⟨10, 30, 0⟩, some 0)) ∧
    compute_event_window (some "10:30Z") none ⟨2026, 3, 10, 12, 0, 0⟩ loff =
      .error .typeError ∧
    (∀ e', PyError.typeError ≠ PyError.http e') := by
  have hp : ∀ lo : Int,
      parse_bound "10:30Z" lo = .ok (none, some (⟨10, 30, 0⟩, some 0)) := by
    intro lo
    unfold parse_bound
    rw [show datetime_fromisoformat (boundCandidate "10:30Z") = none from
      by decide]
    dsimp only
    rw [show time_fromisoformat (boundCandidate "10:30Z") =
      some ((⟨10, 30, 0⟩ : Time), some (0 : Int)) from by decide]
  refine ⟨?_, ⟨rfl, rfl⟩, ?_, hp loff, ?_, ?_⟩
  · intro err
    constructor
    · intro h
      unfold parse_bound at h
      cases hd : datetime_fromisoformat (boundCandidate raw) with
      | some v =>
        rw [hd] at h
        obtain ⟨dt, off⟩ := v
        simp at h
      | none =>
        rw [hd] at h
        cases ht : time_fromisoformat (boundCandidate raw) with
        | some t => rw [ht] at h; simp at h
        | none =>
          rw [ht] at h
          exact ⟨rfl, rfl, ((Except.error.injEq _ _).mp h).symm⟩
    · rintro ⟨hd, ht, rfl⟩
      unfold parse_bound
      rw [hd, ht]
  · intro dt off hd
    unfold parse_bound
    rw [hd]
    rfl
  · unfold compute_event_window
    dsimp only
    rw [hp loff]
    decide
  · intro e' hcon
    exact PyError.noConfusion hcon

/-- Witness for `C4_bound_errors`: `"garbage"` fails both parses and yields
exactly the 422; a `Z`-suffixed datetime is normalised to local naive time;
`"10:30Z"` parses to an aware time and then crashes the resolver with a
`TypeError`. -/
theorem C4_bound_errors_witness :
    parse_bound "garbage" 0 = .error (invalidBoundError "garbage") ∧
    parse_bound "2026-01-01T10:30:00Z" 330 =
      .ok (some ⟨2026, 1, 1, 16, 0, 0⟩, none) ∧
    parse_bound "10:30Z" 330 = .ok (none, some (⟨10, 30, 0⟩, some 0)) ∧
    compute_event_window (some "10:30Z") none ⟨2026, 3, 10, 12, 0, 0⟩ 330 =
      .error .typeError := by
  have hmain := C4_bound_errors "garbage" 0
  have hmain2 := C4_bound_errors "2026-01-01T10:30:00Z" 330
  have h2 := hmain2.2.2.1 ⟨2026, 1, 1, 10, 30, 0⟩ 0 (by decide)
  rw [show addMinutes ⟨2026, 1, 1, 10, 30, 0⟩ (330 - 0) =
    (⟨2026, 1, 1, 16, 0, 0⟩ : DateTime) from by decide] at h2
  exact ⟨(hmain.1 _).mpr ⟨by decide, by decide, rfl⟩, h2,
    hmain2.2.2.2.1, hmain2.2.2.2.2.1⟩

theorem daysInMonth_le_31 (y m : Nat) : daysInMonth y m ≤ 31 := by
  rcases m with _|_|_|_|_|_|_|_|_|_|_|_|_|m <;>
    first
      | (dsimp only [daysInMonth]; omega)
      | (dsimp only [daysInMonth]; split <;> omega)

theorem combine_key_le_addOneDay (b : DateTime) (ts te : Time)
    (hmo1 : 1 ≤ b.month) (hmo2 : b.month ≤ 12)
    (hd1 : 1 ≤ b.day) (hd2 : b.day ≤ daysInMonth b.year b.month)
    (hts : ts.Valid) :
    (combine b ts).key ≤ (addOneDay (combine b te)).key := by
  have h31 := daysInMonth_le_31 b.year b.month
  obtain ⟨o1, o2, o3⟩ := hts
  unfold addOneDay combine DateTime.key at *
  dsimp only at *
  split_ifs with h1 h2 <;> dsimp only <;> omega

/-- The C2 claim's unconditional "in every case start ≤ end" clause is false
of the code once offset-aware time-only bounds are taken into account: with
`start="23:59-23:59"` and `end="00:00+23:59"` both bounds are aware
time-only values, the instants compare as `end < start`, the midnight-span
rule adds a single day to `end` — 86 400 s, less than the 172 680 s
instant gap — and the resolver returns a window whose `end` still denotes
an instant strictly before `start`. -/
theorem C2_counterexample :
    compute_event_window (some "23:59-23:59") (some "00:00+23:59")
        ⟨2026, 3, 10, 12, 0, 0⟩ 330 =
      .ok ((⟨2026, 3, 10, 23, 59, 0⟩, some (-1439)),
           (⟨2026, 3, 11, 0, 0, 0⟩, some 1439)) ∧
    awLtB (⟨2026, 3, 11, 0, 0, 0⟩, some 1439)
        (⟨2026, 3, 10, 23, 59, 0⟩, some (-1439)) = some true :=
  ⟨by decide, by decide⟩

/-- C2 (amended): with both bounds supplied and successfully parsed, the
resolver
(a) returns a window with `start ≤ end` whenever both resolved bounds are
    naive — in particular for every offset-free input, the whole originally
    intended domain (offset-aware bounds can evade this, see the
    counterexample, and a naive/aware mix raises `TypeError` instead of
    returning a window);
(b) shifts a time-only `end` into the next calendar day when both bounds
    were time-only and `end < start` (both anchored to today, i.e. `now`'s
    date);
(c) swaps the two resolved datetimes when `end < start` but not both bounds
    were time-only; and
(d) keeps the pair as resolved (each bound's explicit date, else the shared
    base date) when `end` is not before `start`. -/
theorem C2_window_both_bounds (s e : String) (now : DateTime) (loff : Int)
    (hnow : now.Valid) :
    (∀ w, compute_event_window (some s) (some e) now loff = .ok w →
      w.1.2 = none → w.2.2 = none → dtLe w.1.1 w.2.1 = true) ∧
    (∀ ts te, parse_bound s loff = .ok (none, some ts) →
      parse_bound e loff = .ok (none, some te) →
      awLtB (combine now te.1, te.2) (combine now ts.1, ts.2) = some true →
      compute_event_window (some s) (some e) now loff =
        .ok ((combine now ts.1, ts.2), (addOneDay (combine now te.1), te.2))) ∧
    (∀ sdt st edt et,
      parse_bound s loff = .ok (sdt, st) →
      parse_bound e loff = .ok (edt, et) →
      (sdt = none && edt = none && st.isSome && et.isSome) = false →
      awLtB (to_datetime (windowBaseDate sdt edt now) now edt et)
          (to_datetime (windowBaseDate sdt edt now) now sdt st) = some true →
      compute_event_window (some s) (some e) now loff =
        .ok (to_datetime (windowBaseDate sdt edt now) now edt et,
             to_datetime (windowBaseDate sdt edt now) now sdt st)) ∧
    (∀ sdt st edt et,
      parse_bound s loff = .ok (sdt, st) →
      parse_bound e loff = .ok (edt, et) →
      awLtB (to_datetime (windowBaseDate sdt edt now) now edt et)
          (to_datetime (windowBaseDate sdt edt now) now sdt st) = some false →
      compute_event_window (some s) (some e) now loff =
        .ok (to_datetime (windowBaseDate sdt edt now) now sdt st,
             to_datetime (windowBaseDate sdt edt now) now edt et)) := by
  obtain ⟨hv1, hv2, hv3, hv4, hv5, hv6, hv7, hv8, hv9⟩ := hnow
  refine ⟨?_, ?_, ?_, ?_⟩
  · intro w h hw1 hw2
    unfold compute_event_window at h
    dsimp only at h
    cases hps : parse_bound s loff with
    | error e' => rw [hps] at h; simp at h
    | ok v =>
      rw [hps] at h
      obtain ⟨sdt, st⟩ := v
      dsimp only at h
      cases hpe : parse_bound e loff with
      | error e' => rw [hpe] at h; simp at h
      | ok v2 =>
        rw [hpe] at h
        obtain ⟨edt, et⟩ := v2
        dsimp only at h
        cases hc : awLtB (to_datetime (windowBaseDate sdt edt now) now edt et)
            (to_datetime (windowBaseDate sdt edt now) now sdt st) with
        | none => rw [hc] at h; simp at h
        | some v3 =>
          rw [hc] at h
          cases v3 with
          | false =>
            dsimp only at h
            obtain rfl : (to_datetime (windowBaseDate sdt edt now) now sdt st,
                to_datetime (windowBaseDate sdt edt now) now edt et) = w := by
              simpa using h
            rw [awLtB_none_none _ _ hw2 hw1] at hc
            have hlt := Option.some.inj hc
            simp only [dtLt, decide_eq_false_iff_not, decide_eq_true_eq] at hlt
            simp only [dtLe, decide_eq_true_eq]
            omega
          | true =>
            dsimp only at h
            split_ifs at h with hcond
            · obtain ⟨⟨⟨rfl, rfl⟩, hst⟩, het⟩ : ((sdt = none ∧ edt = none) ∧
                  st.isSome = true) ∧ et.isSome = true := by
                simpa [Bool.and_eq_true] using hcond
              obtain ⟨tso, rfl⟩ := Option.isSome_iff_exists.mp hst
              obtain ⟨teo, rfl⟩ := Option.isSome_iff_exists.mp het
              obtain rfl : (to_datetime (windowBaseDate none none now) now
                    none (some tso),
                  (addOneDay (to_datetime (windowBaseDate none none now) now
                    none (some teo)).1,
                   (to_datetime (windowBaseDate none none now) now
                    none (some teo)).2)) = w := by
                simpa using h
              have htv : tso.1.Valid := parse_bound_time_valid s loff tso hps
              show dtLe (combine now tso.1) (addOneDay (combine now teo.1)) = true
              simp only [dtLe, decide_eq_true_eq]
              exact combine_key_le_addOneDay now tso.1 teo.1 hv3 hv4 hv5 hv6 htv
            · obtain rfl : (to_datetime (windowBaseDate sdt edt now) now edt et,
                  to_datetime (windowBaseDate sdt edt now) now sdt st) = w := by
                simpa using h
              rw [awLtB_none_none _ _ hw1 hw2] at hc
              have hlt := Option.some.inj hc
              simp only [dtLt, decide_eq_true_eq] at hlt
              simp only [dtLe, decide_eq_true_eq]
              omega
  · intro ts te hps hpe hlt
    unfold compute_event_window
    dsimp only
    rw [hps]
    dsimp only
    rw [hpe]
    dsimp only
    simp only [to_datetime, windowBaseDate] at hlt ⊢
    rw [hlt]
    simp
  · intro sdt st edt et hps hpe hboth hlt
    unfold compute_event_window
    dsimp only
    rw [hps]
    dsimp only
    rw [hpe]
    dsimp only
    rw [hlt]
    dsimp only
    rw [hboth]
    simp
  · intro sdt st edt et hps hpe hlt
    unfold compute_event_window
    dsimp only
    rw [hps]
    dsimp only
    rw [hpe]
    dsimp only
    rw [hlt]

/-- Witness for `C2_window_both_bounds`: `start="09:00"`, `end="08:00"`,
both time-only and offset-free — the resolver returns `end` at 08:00 on
the day after the base date, giving `start < end`. -/
theorem C2_window_both_bounds_witness :
    compute_event_window (some "09:00") (some "08:00") ⟨2026, 3, 10, 12, 0, 0⟩ 330 =
      .ok ((⟨2026, 3, 10, 9, 0, 0⟩, none), (⟨2026, 3, 11, 8, 0, 0⟩, none)) ∧
    dtLe ⟨2026, 3, 10, 9, 0, 0⟩ ⟨2026, 3, 11, 8, 0, 0⟩ = true := by
  have h := (C2_window_both_bounds "09:00" "08:00" ⟨2026, 3, 10, 12, 0, 0⟩ 330
      (by decide)).2.1 (⟨9, 0, 0⟩, none) (⟨8, 0, 0⟩, none) (by decide) (by decide)
      (by decide)
  refine ⟨?_, by decide⟩
  simpa using h


/-! ## Digit-rendering and `strptime`∘`strftime` lemmas -/

theorem data_append (a b : String) : (a ++ b).data = a.data ++ b.data := by
  cases a; cases b; rfl

theorem data_mk (l : List Char) : (String.mk l).data = l := rfl

theorem digitChar_isDigit {n : Nat} (h : n < 10) :
    (Nat.digitChar n).isDigit = true := by
  interval_cases n <;> decide

theorem dval_digitChar {n : Nat} (h : n < 10) : dval (Nat.digitChar n) = n := by
  interval_cases n <;> decide

theorem natDigitsAux_succ (fuel k : Nat) :
    natDigitsAux (fuel + 1) k =
      if k < 10 then [Nat.digitChar k]
      else natDigitsAux fuel (k / 10) ++ [Nat.digitChar (k % 10)] := rfl

theorem natDigitsAux_of_lt (fuel k : Nat) (h : k < fuel) :
    natDigitsAux fuel k =
      if k < 10 then [Nat.digitChar k]
      else natDigitsAux (fuel - 1) (k / 10) ++ [Nat.digitChar (k % 10)] := by
  cases fuel with
  | zero => omega
  | succ f => rfl

theorem natDigits_two (n : Nat) (h1 : 10 ≤ n) (h2 : n ≤ 99) :
    natDigits n = [Nat.digitChar (n / 10), Nat.digitChar (n % 10)] := by
  show natDigitsAux (n + 1) n = _
  rw [natDigitsAux_of_lt _ _ (by omega), if_neg (by omega)]
  rw [natDigitsAux_of_lt _ _ (by omega), if_pos (by omega)]
  simp

theorem natDigits_four (n : Nat) (h1 : 1000 ≤ n) (h2 : n ≤ 9999) :
    natDigits n = [Nat.digitChar (n / 1000), Nat.digitChar (n / 100 % 10),
      Nat.digitChar (n / 10 % 10), Nat.digitChar (n % 10)] := by
  show natDigitsAux (n + 1) n = _
  rw [natDigitsAux_of_lt _ _ (by omega), if_neg (by omega)]
  rw [natDigitsAux_of_lt _ _ (by omega), if_neg (by omega)]
  rw [natDigitsAux_of_lt _ _ (by omega), if_neg (by omega)]
  rw [natDigitsAux_of_lt _ _ (by omega), if_pos (by omega)]
  rw [show n / 10 / 10 = n / 100 by omega, show n / 100 / 10 = n / 1000 by omega]
  simp

theorem pad2_data (d : Nat) (h : d ≤ 99) :
    (pad2 d).data = [Nat.digitChar (d / 10), Nat.digitChar (d % 10)] := by
  unfold pad2
  split_ifs with hlt
  · have : d / 10 = 0 := by omega
    have : Nat.digitChar (d / 10) = '0' := by rw [this]; rfl
    rw [data_mk, this]
    have : d % 10 = d := by omega
    rw [this]
  · unfold natRepr
    rw [data_mk, natDigits_two d (by omega) h]

theorem natRepr_four (y : Nat) (h1 : 1000 ≤ y) (h2 : y ≤ 9999) :
    (natRepr y).data = [Nat.digitChar (y / 1000), Nat.digitChar (y / 100 % 10),
      Nat.digitChar (y / 10 % 10), Nat.digitChar (y % 10)] := by
  unfold natRepr
  rw [data_mk, natDigits_four y h1 h2]

theorem parseDayDash_digits (a b : Nat) (r : List Char) (ha : a < 10) (hb : b < 10) :
    parseDayDash (Nat.digitChar a :: Nat.digitChar b :: '-' :: r) =
      some (a * 10 + b, r) := by
  simp only [parseDayDash]
  rw [if_pos (by simp [digitChar_isDigit ha, digitChar_isDigit hb])]
  rw [dval_digitChar ha, dval_digitChar hb]

theorem parseHourColon_digits (a b : Nat) (r : List Char) (ha : a < 10) (hb : b < 10) :
    parseHourColon (Nat.digitChar a :: Nat.digitChar b :: ':' :: r) =
      some (a * 10 + b, r) := by
  simp only [parseHourColon]
  rw [if_pos (by simp [digitChar_isDigit ha, digitChar_isDigit hb])]
  rw [dval_digitChar ha, dval_digitChar hb]

theorem parseYearSpace_digits (a b c d : Nat) (r : List Char)
    (ha : a < 10) (hb : b < 10) (hc : c < 10) (hd : d < 10) :
    parseYearSpace (Nat.digitChar a :: Nat.digitChar b :: Nat.digitChar c ::
        Nat.digitChar d :: ' ' :: r) =
      some (((a * 10 + b) * 10 + c) * 10 + d, r) := by
  simp only [parseYearSpace]
  rw [if_pos (by simp [digitChar_isDigit ha, digitChar_isDigit hb,
    digitChar_isDigit hc, digitChar_isDigit hd])]
  rw [dval_digitChar ha, dval_digitChar hb, dval_digitChar hc, dval_digitChar hd]

theorem parseMin2End_digits (a b : Nat) (ha : a < 10) (hb : b < 10) :
    parseMin2End [Nat.digitChar a, Nat.digitChar b] = some (a * 10 + b) := by
  simp only [parseMin2End]
  rw [if_pos (by simp [digitChar_isDigit ha, digitChar_isDigit hb])]
  rw [dval_digitChar ha, dval_digitChar hb]

theorem parseMonDash_cons (m1 m2 m3 : Char) (r : List Char) :
    parseMonDash (m1 :: m2 :: m3 :: '-' :: r) =
      match monthFromAbbr [m1, m2, m3] with
      | some m => some (m, r)
      | none => none := rfl

theorem parseMonDash_abbr (mo : Nat) (h1 : 1 ≤ mo) (h2 : mo ≤ 12) (r : List Char) :
    parseMonDash ((monthAbbr mo).data ++ '-' :: r) = some (mo, r) := by
  interval_cases mo <;>
    first
      | (rw [show (monthAbbr 1).data = ['J','a','n'] from rfl, List.cons_append,
          List.cons_append, List.cons_append, List.nil_append, parseMonDash_cons,
          show monthFromAbbr ['J','a','n'] = some 1 from by decide])
      | (rw [show (monthAbbr 2).data = ['F','e','b'] from rfl, List.cons_append,
          List.cons_append, List.cons_append, List.nil_append, parseMonDash_cons,
          show monthFromAbbr ['F','e','b'] = some 2 from by decide])
      | (rw [show (monthAbbr 3).data = ['M','a','r'] from rfl, List.cons_append,
          List.cons_append, List.cons_append, List.nil_append, parseMonDash_cons,
          show monthFromAbbr ['M','a','r'] = some 3 from by decide])
      | (rw [show (monthAbbr 4).data = ['A','p','r'] from rfl, List.cons_append,
          List.cons_append, List.cons_append, List.nil_append, parseMonDash_cons,
          show monthFromAbbr ['A','p','r'] = some 4 from by decide])
      | (rw [show (monthAbbr 5).data = ['M','a','y'] from rfl, List.cons_append,
          List.cons_append, List.cons_append, List.nil_append, parseMonDash_cons,
          show monthFromAbbr ['M','a','y'] = some 5 from by decide])
      | (rw [show (monthAbbr 6).data = ['J','u','n'] from rfl, List.cons_append,
          List.cons_append, List.cons_append, List.nil_append, parseMonDash_cons,
          show monthFromAbbr ['J','u','n'] = some 6 from by decide])
      | (rw [show (monthAbbr 7).data = ['J','u','l'] from rfl, List.cons_append,
          List.cons_append, List.cons_append, List.nil_append, parseMonDash_cons,
          show monthFromAbbr ['J','u','l'] = some 7 from by decide])
      | (rw [show (monthAbbr 8).data = ['A','u','g'] from rfl, List.cons_append,
          List.cons_append, List.cons_append, List.nil_append, parseMonDash_cons,
          show monthFromAbbr ['A','u','g'] = some 8 from by decide])
      | (rw [show (monthAbbr 9).data = ['S','e','p'] from rfl, List.cons_append,
          List.cons_append, List.cons_append, List.nil_append, parseMonDash_cons,
          show monthFromAbbr ['S','e','p'] = some 9 from by decide])
      | (rw [show (monthAbbr 10).data = ['O','c','t'] from rfl, List.cons_append,
          List.cons_append, List.cons_append, List.nil_append, parseMonDash_cons,
          show monthFromAbbr ['O','c','t'] = some 10 from by decide])
      | (rw [show (monthAbbr 11).data = ['N','o','v'] from rfl, List.cons_append,
          List.cons_append, List.cons_append, List.nil_append, parseMonDash_cons,
          show monthFromAbbr ['N','o','v'] = some 11 from by decide])
      | (rw [show (monthAbbr 12).data = ['D','e','c'] from rfl, List.cons_append,
          List.cons_append, List.cons_append, List.nil_append, parseMonDash_cons,
          show monthFromAbbr ['D','e','c'] = some 12 from by decide])

/-- `strptime("%d-%b-%Y %H:%M")` inverts `strftime("%d-%b-%Y")` plus a
rendered `HH:MM` time, for any valid date whose year has four digits. -/
theorem strptime_strftime_roundtrip (x : DateTime) (h mi : Nat)
    (hv : x.Valid) (hy : 1000 ≤ x.year) (hh : h ≤ 23) (hmi : mi ≤ 59) :
    strptime_dmy_hm (strftime_dmbY x ++ " " ++ pad2 h ++ ":" ++ pad2 mi) =
      some ⟨x.year, x.month, x.day, h, mi, 0⟩ := by
  obtain ⟨y, mo, d, xh, xm, xs⟩ := x
  obtain ⟨hy1, hy2, hmo1, hmo2, hd1, hd2, _, _, _⟩ := hv
  dsimp only at hy1 hy2 hmo1 hmo2 hd1 hd2 hy ⊢
  have h31 : d ≤ 31 := le_trans hd2 (daysInMonth_le_31 y mo)
  have hdata : (strftime_dmbY ⟨y, mo, d, xh, xm, xs⟩ ++ " " ++ pad2 h ++ ":" ++ pad2 mi).data
      = (pad2 d).data ++ '-' :: ((monthAbbr mo).data ++ '-' ::
          ((natRepr y).data ++ ' ' :: ((pad2 h).data ++ ':' :: (pad2 mi).data))) := by
    unfold strftime_dmbY
    simp only [data_append]
    simp [data_mk]
  unfold strptime_dmy_hm
  rw [hdata, pad2_data d (by omega), List.cons_append, List.cons_append,
    List.nil_append]
  rw [parseDayDash_digits _ _ _ (by omega) (by omega)]
  have hd' : d / 10 * 10 + d % 10 = d := by omega
  rw [hd']
  dsimp only
  rw [if_neg (by simp; omega)]
  rw [parseMonDash_abbr mo hmo1 hmo2]
  dsimp only
  rw [natRepr_four y hy hy2, List.cons_append, List.cons_append,
    List.cons_append, List.cons_append, List.nil_append]
  rw [parseYearSpace_digits _ _ _ _ _ (by omega) (by omega) (by omega) (by omega)]
  have hy' : ((y / 1000 * 10 + y / 100 % 10) * 10 + y / 10 % 10) * 10 + y % 10 = y := by
    omega
  rw [hy']
  dsimp only
  rw [pad2_data h (by omega), List.cons_append, List.cons_append, List.nil_append]
  rw [parseHourColon_digits _ _ _ (by omega) (by omega)]
  have hh' : h / 10 * 10 + h % 10 = h := by omega
  rw [hh']
  dsimp only
  rw [if_neg (by omega)]
  rw [pad2_data mi (by omega)]
  rw [parseMin2End_digits _ _ (by omega) (by omega)]
  have hmi' : mi / 10 * 10 + mi % 10 = mi := by omega
  rw [hmi']
  dsimp only
  rw [if_neg (by omega), if_neg (by omega), if_neg (by omega)]


/-! ## C3: the `lastUpdate` anchor is the maximum of all parsed candidates -/

theorem foldMax_spec (rest : List DateTime) : ∀ x : DateTime,
    (rest.foldl (fun acc d => if dtLt acc d then d else acc) x) ∈ x :: rest ∧
    x.key ≤ (rest.foldl (fun acc d => if dtLt acc d then d else acc) x).key ∧
    ∀ d ∈ rest, d.key ≤ (rest.foldl (fun acc d => if dtLt acc d then d else acc) x).key := by
  induction rest with
  | nil => intro x; simp
  | cons y t ih =>
    intro x
    simp only [List.foldl_cons]
    obtain ⟨hmem, hle, hall⟩ := ih (if dtLt x y then y else x)
    have hxy : x.key ≤ (if dtLt x y then y else x).key ∧
        y.key ≤ (if dtLt x y then y else x).key := by
      unfold dtLt
      split_ifs with hxy
      · simp only [decide_eq_true_eq] at hxy
        omega
      · simp only [decide_eq_true_eq] at hxy
        omega
    refine ⟨?_, le_trans hxy.1 hle, ?_⟩
    · rcases List.mem_cons.mp hmem with he | ht
      · rw [he]
        split_ifs <;> simp
      · simp [ht]
    · intro d hd
      rcases List.mem_cons.mp hd with rfl | hdt
      · exact le_trans hxy.2 hle
      · exact hall d hdt

/-- C3: `lastUpdate` is absent exactly when no line yields a successfully
parsed `Last Updates On` candidate, and otherwise it is the maximum of all
candidates (it is itself a candidate and no candidate exceeds it); a line
whose matched fragment fails to parse contributes no candidate at all (see
`luCandidates`). -/
theorem C3_last_update_max (lines : List String) :
    (parse_last_update_dt lines = none ↔ luCandidates lines = []) ∧
    (∀ m, parse_last_update_dt lines = some m →
      m ∈ luCandidates lines ∧ ∀ d ∈ luCandidates lines, dtLe d m = true) := by
  constructor
  · unfold parse_last_update_dt pyMaxDT
    cases h : luCandidates lines <;> simp
  · intro m hm
    unfold parse_last_update_dt pyMaxDT at hm
    cases hc : luCandidates lines with
    | nil => rw [hc] at hm; simp at hm
    | cons x rest =>
      rw [hc] at hm
      obtain rfl : rest.foldl (fun acc d => if dtLt acc d then d else acc) x = m := by
        simpa using hm
      obtain ⟨hmem, hx, hall⟩ := foldMax_spec rest x
      refine ⟨hmem, ?_⟩
      intro d hd
      unfold dtLe
      simp only [decide_eq_true_eq]
      rcases List.mem_cons.mp hd with rfl | hdt
      · exact hx
      · exact hall d hdt

/-- Witness for `C3_last_update_max`: two update lines, the fresher one
first; the anchor is the maximum and dominates the stale candidate. -/
theorem C3_last_update_max_witness :
    (⟨2026, 1, 15, 10, 0, 0⟩ : DateTime) ∈
      luCandidates ["Last Updates On 15-Jan-2026 10:00", "Last Updates On 14-Jan-2026"] ∧
    dtLe ⟨2026, 1, 14, 0, 0, 0⟩ ⟨2026, 1, 15, 10, 0, 0⟩ = true := by
  have h := (C3_last_update_max
      ["Last Updates On 15-Jan-2026 10:00", "Last Updates On 14-Jan-2026"]).2
      ⟨2026, 1, 15, 10, 0, 0⟩ (by decide)
  exact ⟨h.1, h.2 _ (by decide)⟩

/-! ## C1: event-timestamp resolution in `_build_event_dt` -/

theorem str_ext {s t : String} (h : s.data = t.data) : s = t := by
  cases s
  cases t
  exact congrArg String.mk h

theorem str_append_assoc (a b c : String) : a ++ b ++ c = a ++ (b ++ c) := by
  apply str_ext
  simp [data_append, List.append_assoc]

theorem str_ne_empty_of_data {s : String} (h : s.data ≠ []) : s ≠ "" := by
  intro he
  rw [he] at h
  exact h rfl

/-- C1: resolution of an event timestamp in `_build_event_dt`.
1. A date token carrying a year is combined directly — neither the anchor
   nor the current year can influence the result.
2. With any (non-empty) date token, an anchor `lu` acts exactly as if the
   current year were `lu.year` — the year appended to a bare fragment is
   taken from the anchor.
3./4. A missing time token defaults to `00:00`.
5. No date token and no anchor: the timestamp is absent.
6. No date token but an anchor: the anchor's calendar date is combined with
   the time token (for any valid anchor with a four-digit year).
7. The spec's scenario: anchor `2026-01-15 10:00` and bare fragment
   `"20-Jan"` resolve to year 2026 (current year 2031 is ignored).
8. A combination that fails to parse as a real calendar date yields an
   absent timestamp rather than an error. -/
theorem C1_timestamp_resolution (dp : String) (tp : Option String)
    (lu : DateTime) (olu : Option DateTime) (ny : Nat) :
    ((reMatch fullDateAnchoredRE dp).isSome = true →
      build_event_dt (some dp) tp olu ny = build_event_dt (some dp) tp none 0) ∧
    (dp ≠ "" →
      build_event_dt (some dp) tp (some lu) ny =
        build_event_dt (some dp) tp none lu.year) ∧
    (build_event_dt (some dp) none olu ny =
      build_event_dt (some dp) (some "00:00") olu ny) ∧
    (build_event_dt none none olu ny =
      build_event_dt none (some "00:00") olu ny) ∧
    (build_event_dt none tp none ny = none) ∧
    (∀ h mi, lu.Valid → 1000 ≤ lu.year → h ≤ 23 → mi ≤ 59 →
      build_event_dt none (some (pad2 h ++ ":" ++ pad2 mi)) (some lu) ny =
        some ⟨lu.year, lu.month, lu.day, h, mi, 0⟩) ∧
    (build_event_dt (some "20-Jan") none (some ⟨2026, 1, 15, 10, 0, 0⟩) 2031 =
      some ⟨2026, 1, 20, 0, 0, 0⟩) ∧
    (build_event_dt (some "31-Feb-2026") none olu ny = none) := by
  refine ⟨?_, ?_, ?_, ?_, ?_, ?_, by decide, ?_⟩
  · intro hfull
    by_cases hdp : dp = ""
    · subst hdp
      exact absurd hfull (by decide)
    · unfold build_event_dt
      dsimp only
      simp [hdp, hfull]
  · intro hdp
    by_cases hfull : (reMatch fullDateAnchoredRE dp).isSome = true
    · unfold build_event_dt
      dsimp only
      simp [hdp, hfull]
    · unfold build_event_dt
      dsimp only
      simp [hdp, hfull]
  · unfold build_event_dt
    dsimp only
    rw [if_neg (by decide : ¬("00:00" : String) = "")]
  · unfold build_event_dt
    dsimp only
    rw [if_neg (by decide : ¬("00:00" : String) = "")]
  · rfl
  · intro h mi hv hy hh hmi
    have hne : (pad2 h ++ ":" ++ pad2 mi) ≠ "" := by
      apply str_ne_empty_of_data
      rw [data_append, data_append, pad2_data h (by omega)]
      simp
    unfold build_event_dt
    dsimp only
    rw [if_neg hne]
    unfold buildFromAnchor
    dsimp only
    rw [show strftime_dmbY lu ++ " " ++ (pad2 h ++ ":" ++ pad2 mi) =
          strftime_dmbY lu ++ " " ++ pad2 h ++ ":" ++ pad2 mi from
        str_ext (by simp [data_append, List.append_assoc])]
    exact strptime_strftime_roundtrip lu h mi hv hy hh hmi
  · by_cases hfull : (reMatch fullDateAnchoredRE "31-Feb-2026").isSome = true
    · unfold build_event_dt
      dsimp only
      rw [if_neg (by decide : ¬("31-Feb-2026" : String) = ""), if_pos hfull]
      decide
    · exact absurd (by decide) hfull

/-- Witness for `C1_timestamp_resolution`: each conditional clause applied
at a concrete input. -/
theorem C1_timestamp_resolution_witness :
    (build_event_dt (some "15-Jan-2026") (some "10:30")
        (some ⟨2031, 5, 5, 0, 0, 0⟩) 2040 =
      build_event_dt (some "15-Jan-2026") (some "10:30") none 0) ∧
    (build_event_dt (some "20-Jan") none (some ⟨2026, 1, 15, 10, 0, 0⟩) 2031 =
      build_event_dt (some "20-Jan") none none 2026) ∧
    (build_event_dt none (some (pad2 10 ++ ":" ++ pad2 30))
        (some ⟨2026, 1, 15, 10, 0, 0⟩) 2040 =
      some ⟨2026, 1, 15, 10, 30, 0⟩) ∧
    (build_event_dt (some "20-Jan") none (some ⟨2026, 1, 15, 10, 0, 0⟩) 2031 =
      some ⟨2026, 1, 20, 0, 0, 0⟩) := by
  refine ⟨?_, ?_, ?_, ?_⟩
  · exact (C1_timestamp_resolution "15-Jan-2026" (some "10:30")
      ⟨2031, 5, 5, 0, 0, 0⟩ (some ⟨2031, 5, 5, 0, 0, 0⟩) 2040).1 (by decide)
  · exact (C1_timestamp_resolution "20-Jan" none
      ⟨2026, 1, 15, 10, 0, 0⟩ none 2031).2.1 (by decide)
  · exact (C1_timestamp_resolution "x" none
      ⟨2026, 1, 15, 10, 0, 0⟩ none 2040).2.2.2.2.2.1 10 30
      (by decide) (by decide) (by decide) (by decide)
  · exact (C1_timestamp_resolution "x" none
      ⟨2026, 1, 15, 10, 0, 0⟩ none 2040).2.2.2.2.2.2.1


/-! ## C5: a bare-verb (Tier C) line needs a resolvable timestamp -/

/-- C5: a line that passes the keyword gate, is matched by no higher tier,
and is matched by Tier C (bare `Departed`/`Arrived`) produces an event
**only if** a timestamp could be resolved for it; any event it produces has
an absent station and code and a present timestamp. -/
theorem C5_tierC_requires_timestamp (lu : Option DateTime) (ny : Nat)
    (ln : String)
    (hGate : (reSearch verbGateRE ln).isSome = true)
    (hA : reSearch tierARE ln = none)
    (hB : reSearch tierBRE ln = none)
    (m : RMatch) (hC : reSearch tierCRE ln = some m) :
    (build_event_dt (searchDateTok ln) (searchTimeTok ln) lu ny = none →
      parseLine lu ny ln = none) ∧
    (∀ ev, parseLine lu ny ln = some ev →
      ev.station = none ∧ ev.code = none ∧ ev.datetime.isSome = true) := by
  unfold parseLine
  cases hG : reSearch verbGateRE ln with
  | none => rw [hG] at hGate; simp at hGate
  | some g =>
    simp only [Option.isNone_some, if_false, Bool.false_eq_true]
    rw [hA, hB, hC]
    dsimp only
    constructor
    · intro hdt
      rw [hdt]
      simp
    · intro ev hev
      split_ifs at hev with hcond
      · obtain rfl : _ = ev := (Option.some.injEq _ _).mp hev
        simp only [Bool.and_eq_true] at hcond
        exact ⟨rfl, rfl, hcond.1⟩

/-- Witness for `C5_tierC_requires_timestamp`: the bare line `"Departed"`
with no anchor has no resolvable timestamp and yields no event. -/
theorem C5_tierC_requires_timestamp_witness :
    parseLine none 2026 "Departed" = none :=
  (C5_tierC_requires_timestamp none 2026 "Departed" (by decide) (by decide)
    (by decide) ⟨0, 8, [(1, "Departed")]⟩ (by decide)).1 (by decide)


/-! ## Character-level case-folding lemmas -/

theorem char_toNat_inj {c d : Char} (h : c.toNat = d.toNat) : c = d :=
  Char.ext (UInt32.toNat.inj h)

theorem char_toNat_ofNat {m : Nat} (h : m < 55296) : (Char.ofNat m).toNat = m := by
  unfold Char.ofNat
  rw [dif_pos (Or.inl h)]
  simp [Char.ofNatAux, Char.toNat, UInt32.ofNat', UInt32.toNat]

theorem isDigit_iff (c : Char) : c.isDigit = true ↔ 48 ≤ c.toNat ∧ c.toNat ≤ 57 := by
  simp [Char.isDigit, UInt32.le_def, BitVec.le_def, Char.toNat, UInt32.toNat,
    Bool.and_eq_true, decide_eq_true_eq]

theorem isUpper_iff (c : Char) : c.isUpper = true ↔ 65 ≤ c.toNat ∧ c.toNat ≤ 90 := by
  simp [Char.isUpper, UInt32.le_def, BitVec.le_def, Char.toNat, UInt32.toNat,
    Bool.and_eq_true, decide_eq_true_eq]

theorem isLower_iff (c : Char) : c.isLower = true ↔ 97 ≤ c.toNat ∧ c.toNat ≤ 122 := by
  simp [Char.isLower, UInt32.le_def, BitVec.le_def, Char.toNat, UInt32.toNat,
    Bool.and_eq_true, decide_eq_true_eq]

theorem isAlpha_iff (c : Char) : c.isAlpha = true ↔
    (65 ≤ c.toNat ∧ c.toNat ≤ 90) ∨ (97 ≤ c.toNat ∧ c.toNat ≤ 122) := by
  simp [Char.isAlpha, Bool.or_eq_true, isUpper_iff, isLower_iff]

theorem isAlphanum_iff (c : Char) : c.isAlphanum = true ↔
    (65 ≤ c.toNat ∧ c.toNat ≤ 90) ∨ (97 ≤ c.toNat ∧ c.toNat ≤ 122) ∨
    (48 ≤ c.toNat ∧ c.toNat ≤ 57) := by
  simp [Char.isAlphanum, Bool.or_eq_true, isAlpha_iff, isDigit_iff]
  tauto

theorem toLower_toNat (c : Char) : (c.toLower).toNat =
    if 65 ≤ c.toNat ∧ c.toNat ≤ 90 then c.toNat + 32 else c.toNat := by
  unfold Char.toLower
  dsimp only
  split_ifs with h1
  · exact char_toNat_ofNat (by omega)
  · rfl

theorem toUpper_toNat (c : Char) : (c.toUpper).toNat =
    if 97 ≤ c.toNat ∧ c.toNat ≤ 122 then c.toNat - 32 else c.toNat := by
  unfold Char.toUpper
  dsimp only
  split_ifs with h1
  · exact char_toNat_ofNat (by omega)
  · rfl

theorem lowerN_eq (c : Char) :
    lowerN c = if 65 ≤ c.toNat ∧ c.toNat ≤ 90 then c.toNat + 32 else c.toNat := rfl

/-- A character folding (case-insensitively) onto a lower-case letter code
`v` is alphabetic, lower-cases to `v` and upper-cases to `v - 32`. -/
theorem char_of_lowerN {d : Char} {v : Nat} (h97 : 97 ≤ v) (h122 : v ≤ 122)
    (h : lowerN d = v) :
    d.isAlpha = true ∧ (d.toLower).toNat = v ∧ (d.toUpper).toNat = v - 32 := by
  rw [lowerN_eq] at h
  rw [isAlpha_iff, toLower_toNat, toUpper_toNat]
  split_ifs at h ⊢ <;> omega

/-- A character matching `[A-Z0-9]` under `re.IGNORECASE` is an ASCII
letter or digit. -/
theorem classMatch_upAlnum {c : Char} (h : classMatch true upAlnum c = true) :
    c.isAlphanum = true := by
  unfold classMatch upAlnum at h
  simp only [Bool.or_eq_true, Bool.true_and] at h
  rw [isAlphanum_iff]
  rcases h with (h | h) | (h | h) | (h | h)
  · rw [isUpper_iff] at h; omega
  · rw [isDigit_iff] at h; omega
  · rw [isUpper_iff, toLower_toNat] at h
    split_ifs at h <;> omega
  · rw [isDigit_iff, toLower_toNat] at h
    split_ifs at h <;> omega
  · rw [isUpper_iff, toUpper_toNat] at h
    split_ifs at h <;> omega
  · rw [isDigit_iff, toUpper_toNat] at h
    split_ifs at h <;> omega

/-! ## Inversion lemmas for the regex engine -/

/-- Pointwise (possibly case-insensitive) agreement of a matched slice with
a pattern literal. -/
def ciMatches (ci : Bool) : List Char → List Char → Prop
  | [], [] => True
  | p :: ps, c :: cs => chEq ci p c = true ∧ ciMatches ci ps cs
  | _, _ => False

theorem drop_cons_of_get? {α} {l : List α} : ∀ {n : Nat} {a : α},
    l.get? n = some a → l.drop n = a :: l.drop (n + 1) := by
  induction l with
  | nil => intro n a h; simp at h
  | cons x t ih =>
    intro n a h
    cases n with
    | zero => simp at h; simp [h]
    | succ k =>
      simp only [List.get?_cons_succ] at h
      simpa using ih h

theorem litAt_slice (input : List Char) (ci : Bool) :
    ∀ (s : List Char) (pos p : Nat), litAt input ci s pos = some p →
      p = pos + s.length ∧ ciMatches ci s ((input.drop pos).take s.length) := by
  intro s
  induction s with
  | nil =>
    intro pos p h
    simp only [litAt] at h
    obtain rfl : pos = p := (Option.some.injEq _ _).mp h
    simp [ciMatches]
  | cons c cs ih =>
    intro pos p h
    simp only [litAt] at h
    cases hg : input.get? pos with
    | none => rw [hg] at h; simp at h
    | some d =>
      rw [hg] at h
      dsimp only at h
      split_ifs at h with hc
      obtain ⟨hp, hm⟩ := ih (pos + 1) p h
      rw [drop_cons_of_get? hg]
      refine ⟨by simp only [List.length_cons]; omega, ?_⟩
      simpa [ciMatches, List.take, hc] using hm

theorem ciMatches_ne_nil {ci : Bool} {p : List Char} {s : List Char}
    (hp : p ≠ []) (h : ciMatches ci p s) : s ≠ [] := by
  cases p with
  | nil => exact absurd rfl hp
  | cons a ps =>
    cases s with
    | nil => exact absurd h (by simp [ciMatches])
    | cons b cs => simp

theorem tryCounts_inv (pos : Nat) (caps : Caps)
    (k : Nat → Caps → Option (Nat × Caps)) :
    ∀ counts r, tryCounts pos caps k counts = some r →
      ∃ c ∈ counts, k (pos + c) caps = some r := by
  intro counts
  induction counts with
  | nil => intro r h; simp [tryCounts] at h
  | cons c rest ih =>
    intro r h
    unfold tryCounts at h
    cases hk : k (pos + c) caps with
    | some r2 =>
      rw [hk] at h
      obtain rfl : r2 = r := (Option.some.injEq _ _).mp h
      exact ⟨c, List.mem_cons_self _ _, hk⟩
    | none =>
      rw [hk] at h
      obtain ⟨c2, hmem, hk2⟩ := ih r h
      exact ⟨c2, List.mem_cons_of_mem _ hmem, hk2⟩

theorem mem_upCounts {lo n c : Nat} (h : c ∈ upCounts lo n) : lo ≤ c ∧ c ≤ n := by
  unfold upCounts at h
  split_ifs at h with hln
  · rw [List.mem_range'] at h
    omega
  · simp at h

theorem searchAux_inv (input : List Char) (r : RE) :
    ∀ (fuel pos : Nat) (m : RMatch), searchAux input r fuel pos = some m →
      matchAt input r m.start = some (m.stop, m.caps) := by
  intro fuel
  induction fuel with
  | zero => intro pos m h; simp [searchAux] at h
  | succ f ih =>
    intro pos m h
    unfold searchAux at h
    cases hm : matchAt input r pos with
    | some v =>
      rw [hm] at h
      obtain rfl : (⟨pos, v.1, v.2⟩ : RMatch) = m := by
        cases v; exact (Option.some.injEq _ _).mp h
      exact hm
    | none =>
      rw [hm] at h
      exact ih (pos + 1) m h

theorem reSearch_inv {r : RE} {s : String} {m : RMatch}
    (h : reSearch r s = some m) :
    matchAt s.data r m.start = some (m.stop, m.caps) :=
  searchAux_inv s.data r _ 0 m h


theorem tierC_capture (input : List Char) (pos e : Nat) (caps : Caps)
    (h : matchAt input tierCRE pos = some (e, caps)) :
    ∃ s : List Char, caps = [(1, String.mk s)] ∧
      (ciMatches true "Departed".data s ∨ ciMatches true "Arrived".data s) := by
  unfold matchAt tierCRE reSeq verbDA reAltList at h
  simp only [List.foldr] at h
  simp only [mrun] at h
  split_ifs at h with hb1
  have harr : ∀ (hh : (match litAt input true "Arrived".data pos with
      | some p =>
        if atWordBoundary input p = true then
          match litAt input false [] p with
          | some p1 => some (p1, setCap 1 ⟨List.take (p - pos) (List.drop pos input)⟩ ([] : Caps))
          | none => none
        else none
      | none => none) = some (e, caps)),
      ∃ s : List Char, caps = [(1, String.mk s)] ∧
        (ciMatches true "Departed".data s ∨ ciMatches true "Arrived".data s) := by
    intro hh
    cases hA : litAt input true "Arrived".data pos with
    | some p =>
      rw [hA] at hh
      dsimp only at hh
      split_ifs at hh with hb2
      obtain ⟨rfl, rfl⟩ : p = e ∧ _ = caps := by
        have := (Option.some.injEq _ _).mp hh
        exact ⟨congrArg Prod.fst this, congrArg Prod.snd this⟩
      obtain ⟨hlen, hcm⟩ := litAt_slice input true _ pos p hA
      rw [show p - pos = ("Arrived".data).length by omega]
      exact ⟨_, rfl, Or.inr hcm⟩
    | none =>
      rw [hA] at hh
      simp at hh
  cases hD : litAt input true "Departed".data pos with
  | some p =>
    rw [hD] at h
    dsimp only at h
    split_ifs at h with hb2
    · obtain ⟨rfl, rfl⟩ : p = e ∧ _ = caps := by
        have := (Option.some.injEq _ _).mp h
        exact ⟨congrArg Prod.fst this, congrArg Prod.snd this⟩
      obtain ⟨hlen, hcm⟩ := litAt_slice input true _ pos p hD
      rw [show p - pos = ("Departed".data).length by omega]
      exact ⟨_, rfl, Or.inl hcm⟩
    · exact harr (by simpa using h)
  | none =>
    rw [hD] at h
    exact harr (by simpa using h)


theorem chEq_lowerN {p c : Char} (h : chEq true p c = true) :
    lowerN p = lowerN c := by
  simpa [chEq] using h

theorem pyTitle_departed {s : List Char} (h : ciMatches true ("Departed" : String).data s) :
    pyTitle (String.mk s) = "Departed" := by
  rw [show ("Departed" : String).data = ['D','e','p','a','r','t','e','d'] from by decide] at h
  rcases s with _ | ⟨c0, s⟩
  · simp [ciMatches] at h
  obtain ⟨h0, h⟩ := h
  rcases s with _ | ⟨c1, s⟩
  · simp [ciMatches] at h
  obtain ⟨h1, h⟩ := h
  rcases s with _ | ⟨c2, s⟩
  · simp [ciMatches] at h
  obtain ⟨h2, h⟩ := h
  rcases s with _ | ⟨c3, s⟩
  · simp [ciMatches] at h
  obtain ⟨h3, h⟩ := h
  rcases s with _ | ⟨c4, s⟩
  · simp [ciMatches] at h
  obtain ⟨h4, h⟩ := h
  rcases s with _ | ⟨c5, s⟩
  · simp [ciMatches] at h
  obtain ⟨h5, h⟩ := h
  rcases s with _ | ⟨c6, s⟩
  · simp [ciMatches] at h
  obtain ⟨h6, h⟩ := h
  rcases s with _ | ⟨c7, s⟩
  · simp [ciMatches] at h
  obtain ⟨h7, h⟩ := h
  rcases s with _ | ⟨cx, s⟩
  case cons => simp [ciMatches] at h
  have e0 : lowerN c0 = 100 := (chEq_lowerN h0).symm.trans (by decide)
  obtain ⟨a0, l0, u0⟩ := char_of_lowerN (by decide) (by decide) e0
  have e1 : lowerN c1 = 101 := (chEq_lowerN h1).symm.trans (by decide)
  obtain ⟨a1, l1, u1⟩ := char_of_lowerN (by decide) (by decide) e1
  have e2 : lowerN c2 = 112 := (chEq_lowerN h2).symm.trans (by decide)
  obtain ⟨a2, l2, u2⟩ := char_of_lowerN (by decide) (by decide) e2
  have e3 : lowerN c3 = 97 := (chEq_lowerN h3).symm.trans (by decide)
  obtain ⟨a3, l3, u3⟩ := char_of_lowerN (by decide) (by decide) e3
  have e4 : lowerN c4 = 114 := (chEq_lowerN h4).symm.trans (by decide)
  obtain ⟨a4, l4, u4⟩ := char_of_lowerN (by decide) (by decide) e4
  have e5 : lowerN c5 = 116 := (chEq_lowerN h5).symm.trans (by decide)
  obtain ⟨a5, l5, u5⟩ := char_of_lowerN (by decide) (by decide) e5
  have e6 : lowerN c6 = 101 := (chEq_lowerN h6).symm.trans (by decide)
  obtain ⟨a6, l6, u6⟩ := char_of_lowerN (by decide) (by decide) e6
  have e7 : lowerN c7 = 100 := (chEq_lowerN h7).symm.trans (by decide)
  obtain ⟨a7, l7, u7⟩ := char_of_lowerN (by decide) (by decide) e7
  have ec0 : c0.toUpper = 'D' := char_toNat_inj (u0.trans (by decide))
  have ec1 : c1.toLower = 'e' := char_toNat_inj (l1.trans (by decide))
  have ec2 : c2.toLower = 'p' := char_toNat_inj (l2.trans (by decide))
  have ec3 : c3.toLower = 'a' := char_toNat_inj (l3.trans (by decide))
  have ec4 : c4.toLower = 'r' := char_toNat_inj (l4.trans (by decide))
  have ec5 : c5.toLower = 't' := char_toNat_inj (l5.trans (by decide))
  have ec6 : c6.toLower = 'e' := char_toNat_inj (l6.trans (by decide))
  have ec7 : c7.toLower = 'd' := char_toNat_inj (l7.trans (by decide))
  apply str_ext
  show pyTitleAux [c0, c1, c2, c3, c4, c5, c6, c7] false = ("Departed" : String).data
  rw [show ("Departed" : String).data = ['D','e','p','a','r','t','e','d'] from by decide]
  simp [pyTitleAux, a0, a1, a2, a3, a4, a5, a6, a7, ec0, ec1, ec2, ec3, ec4, ec5, ec6, ec7]

theorem pyTitle_arrived {s : List Char} (h : ciMatches true ("Arrived" : String).data s) :
    pyTitle (String.mk s) = "Arrived" := by
  rw [show ("Arrived" : String).data = ['A','r','r','i','v','e','d'] from by decide] at h
  rcases s with _ | ⟨c0, s⟩
  · simp [ciMatches] at h
  obtain ⟨h0, h⟩ := h
  rcases s with _ | ⟨c1, s⟩
  · simp [ciMatches] at h
  obtain ⟨h1, h⟩ := h
  rcases s with _ | ⟨c2, s⟩
  · simp [ciMatches] at h
  obtain ⟨h2, h⟩ := h
  rcases s with _ | ⟨c3, s⟩
  · simp [ciMatches] at h
  obtain ⟨h3, h⟩ := h
  rcases s with _ | ⟨c4, s⟩
  · simp [ciMatches] at h
  obtain ⟨h4, h⟩ := h
  rcases s with _ | ⟨c5, s⟩
  · simp [ciMatches] at h
  obtain ⟨h5, h⟩ := h
  rcases s with _ | ⟨c6, s⟩
  · simp [ciMatches] at h
  obtain ⟨h6, h⟩ := h
  rcases s with _ | ⟨cx, s⟩
  case cons => simp [ciMatches] at h
  have e0 : lowerN c0 = 97 := (chEq_lowerN h0).symm.trans (by decide)
  obtain ⟨a0, l0, u0⟩ := char_of_lowerN (by decide) (by decide) e0
  have e1 : lowerN c1 = 114 := (chEq_lowerN h1).symm.trans (by decide)
  obtain ⟨a1, l1, u1⟩ := char_of_lowerN (by decide) (by decide) e1
  have e2 : lowerN c2 = 114 := (chEq_lowerN h2).symm.trans (by decide)
  obtain ⟨a2, l2, u2⟩ := char_of_lowerN (by decide) (by decide) e2
  have e3 : lowerN c3 = 105 := (chEq_lowerN h3).symm.trans (by decide)
  obtain ⟨a3, l3, u3⟩ := char_of_lowerN (by decide) (by decide) e3
  have e4 : lowerN c4 = 118 := (chEq_lowerN h4).symm.trans (by decide)
  obtain ⟨a4, l4, u4⟩ := char_of_lowerN (by decide) (by decide) e4
  have e5 : lowerN c5 = 101 := (chEq_lowerN h5).symm.trans (by decide)
  obtain ⟨a5, l5, u5⟩ := char_of_lowerN (by decide) (by decide) e5
  have e6 : lowerN c6 = 100 := (chEq_lowerN h6).symm.trans (by decide)
  obtain ⟨a6, l6, u6⟩ := char_of_lowerN (by decide) (by decide) e6
  have ec0 : c0.toUpper = 'A' := char_toNat_inj (u0.trans (by decide))
  have ec1 : c1.toLower = 'r' := char_toNat_inj (l1.trans (by decide))
  have ec2 : c2.toLower = 'r' := char_toNat_inj (l2.trans (by decide))
  have ec3 : c3.toLower = 'i' := char_toNat_inj (l3.trans (by decide))
  have ec4 : c4.toLower = 'v' := char_toNat_inj (l4.trans (by decide))
  have ec5 : c5.toLower = 'e' := char_toNat_inj (l5.trans (by decide))
  have ec6 : c6.toLower = 'd' := char_toNat_inj (l6.trans (by decide))
  apply str_ext
  show pyTitleAux [c0, c1, c2, c3, c4, c5, c6] false = ("Arrived" : String).data
  rw [show ("Arrived" : String).data = ['A','r','r','i','v','e','d'] from by decide]
  simp [pyTitleAux, a0, a1, a2, a3, a4, a5, a6, ec0, ec1, ec2, ec3, ec4, ec5, ec6]


/-! ## C10: Tier C with an anchor present -/

/-- C10 (amended): when the anchor is present **and its year is at least
1000** (so that the unpadded `%Y` rendering has four digits and re-parses),
a line reaching Tier C with no date and no time token always produces an
event whose timestamp is the anchor's calendar date at 00:00, with station
and code absent.  (For an anchor year below 1000 the `%d-%b-%Y` rendering
fails to re-parse and the line is dropped — see the counterexample.) -/
theorem C10_anchor_midnight (lu : DateTime) (ny : Nat) (ln : String)
    (hv : lu.Valid) (hy : 1000 ≤ lu.year)
    (hGate : (reSearch verbGateRE ln).isSome = true)
    (hA : reSearch tierARE ln = none)
    (hB : reSearch tierBRE ln = none)
    (m : RMatch) (hC : reSearch tierCRE ln = some m)
    (hDate : searchDateTok ln = none)
    (hTime : searchTimeTok ln = none) :
    parseLine (some lu) ny ln =
      some ⟨ln, some (pyTitle ((m.group 1).getD "")), none, none,
        some ⟨lu.year, lu.month, lu.day, 0, 0, 0⟩,
        (reSearch delayRE ln).bind (fun x => x.group 1)⟩ := by
  have hdt : build_event_dt (searchDateTok ln) (searchTimeTok ln) (some lu) ny =
      some ⟨lu.year, lu.month, lu.day, 0, 0, 0⟩ := by
    rw [hDate, hTime]
    unfold build_event_dt
    dsimp only
    unfold buildFromAnchor
    dsimp only
    rw [show strftime_dmbY lu ++ " " ++ "00:00" =
          strftime_dmbY lu ++ " " ++ pad2 0 ++ ":" ++ pad2 0 from
        str_ext (by
          simp only [data_append]
          rw [show (pad2 0).data = ['0', '0'] from by decide]
          simp [List.append_assoc])]
    exact strptime_strftime_roundtrip lu 0 0 hv hy (by omega) (by omega)
  obtain ⟨s, hcaps, hverb⟩ := tierC_capture _ _ _ _ (reSearch_inv hC)
  have hg1 : m.group 1 = some (String.mk s) := by
    unfold RMatch.group
    rw [hcaps]
    simp [getCap]
  have htruthy : pyTruthy (pyTitle ((m.group 1).getD "")) = true := by
    rw [hg1]
    rcases hverb with h' | h'
    · rw [Option.getD_some, pyTitle_departed h']
      decide
    · rw [Option.getD_some, pyTitle_arrived h']
      decide
  unfold parseLine
  cases hG : reSearch verbGateRE ln with
  | none => rw [hG] at hGate; simp at hGate
  | some g =>
    simp only [Option.isNone_some, if_false, Bool.false_eq_true]
    rw [hA, hB, hC]
    dsimp only
    rw [hdt, htruthy]
    simp [hdt]

/-- Counterexample to C10 as stated: with anchor `0500-01-15 10:00` (year
below 1000) the bare-verb line `"Departed"` reaches Tier C with no date or
time token, yet produces **no** event: the anchor date renders as
`15-Jan-500`, whose three-digit year does not re-parse under
`%d-%b-%Y %H:%M`. -/
theorem C10_counterexample :
    reSearch tierARE "Departed" = none ∧
    reSearch tierBRE "Departed" = none ∧
    reSearch tierCRE "Departed" = some ⟨0, 8, [(1, "Departed")]⟩ ∧
    searchDateTok "Departed" = none ∧
    searchTimeTok "Departed" = none ∧
    DateTime.Valid ⟨500, 1, 15, 10, 0, 0⟩ ∧
    parseLine (some ⟨500, 1, 15, 10, 0, 0⟩) 2026 "Departed" = none := by
  refine ⟨by decide, by decide, by decide, by decide, by decide, by decide, by decide⟩

/-- Witness for `C10_anchor_midnight`: the same line with a four-digit
anchor year produces the event at the anchor's midnight. -/
theorem C10_anchor_midnight_witness :
    parseLine (some ⟨2026, 1, 15, 10, 0, 0⟩) 2031 "Departed" =
      some ⟨"Departed", some "Departed", none, none,
        some ⟨2026, 1, 15, 0, 0, 0⟩, none⟩ := by
  have h := C10_anchor_midnight ⟨2026, 1, 15, 10, 0, 0⟩ 2031 "Departed"
    (by decide) (by decide) (by decide) (by decide) (by decide)
    ⟨0, 8, [(1, "Departed")]⟩ (by decide) (by decide) (by decide)
  rw [h]
  decide


/-! ## Generic `mrun` inversion lemmas (used for the Tier A analysis) -/

theorem mrun_seq2 (input : List Char) (a b : RE) (pos : Nat) (caps : Caps)
    (k : Nat → Caps → Option (Nat × Caps)) :
    mrun input (RE.seq2 a b) pos caps k =
      mrun input a pos caps (fun p c => mrun input b p c k) := rfl

theorem mrun_wordB_inv {input : List Char} {pos : Nat} {caps : Caps}
    {k : Nat → Caps → Option (Nat × Caps)} {r : Nat × Caps}
    (h : mrun input RE.wordB pos caps k = some r) :
    atWordBoundary input pos = true ∧ k pos caps = some r := by
  unfold mrun at h
  split_ifs at h with hb
  exact ⟨hb, h⟩

theorem mrun_lit_inv {input : List Char} {s : List Char} {ci : Bool}
    {pos : Nat} {caps : Caps} {k : Nat → Caps → Option (Nat × Caps)}
    {r : Nat × Caps} (h : mrun input (RE.lit s ci) pos caps k = some r) :
    ∃ p, litAt input ci s pos = some p ∧ k p caps = some r := by
  unfold mrun at h
  cases hl : litAt input ci s pos with
  | some p => rw [hl] at h; exact ⟨p, rfl, h⟩
  | none => rw [hl] at h; simp at h

theorem mrun_plus_inv {input : List Char} {q : Char → Bool} {ci : Bool}
    {pos : Nat} {caps : Caps} {k : Nat → Caps → Option (Nat × Caps)}
    {r : Nat × Caps} (h : mrun input (RE.plus q ci) pos caps k = some r) :
    ∃ c, 1 ≤ c ∧ k (pos + c) caps = some r := by
  unfold mrun at h
  obtain ⟨c, hmem, hk⟩ := tryCounts_inv _ _ _ _ _ h
  rw [List.mem_reverse] at hmem
  exact ⟨c, (mem_upCounts hmem).1, hk⟩

theorem mrun_star_inv {input : List Char} {q : Char → Bool} {ci : Bool}
    {pos : Nat} {caps : Caps} {k : Nat → Caps → Option (Nat × Caps)}
    {r : Nat × Caps} (h : mrun input (RE.star q ci) pos caps k = some r) :
    ∃ c, k (pos + c) caps = some r := by
  unfold mrun at h
  obtain ⟨c, _, hk⟩ := tryCounts_inv _ _ _ _ _ h
  exact ⟨c, hk⟩

theorem mrun_group_lazyPlus_inv {input : List Char} {i : Nat}
    {q : Char → Bool} {ci : Bool} {pos : Nat} {caps : Caps}
    {k : Nat → Caps → Option (Nat × Caps)} {r : Nat × Caps}
    (h : mrun input (RE.group i (RE.lazyPlus q ci)) pos caps k = some r) :
    ∃ c, 1 ≤ c ∧
      k (pos + c) (setCap i (String.mk ((input.drop pos).take c)) caps) = some r := by
  unfold mrun at h
  obtain ⟨c, hmem, hk⟩ := tryCounts_inv _ _ _ _ _ h
  rw [Nat.add_sub_cancel_left] at hk
  exact ⟨c, (mem_upCounts hmem).1, hk⟩

theorem mrun_group_rep_inv {input : List Char} {i : Nat}
    {q : Char → Bool} {ci : Bool} {lo hi : Nat} {pos : Nat} {caps : Caps}
    {k : Nat → Caps → Option (Nat × Caps)} {r : Nat × Caps}
    (h : mrun input (RE.group i (RE.repRange q ci lo hi)) pos caps k = some r) :
    ∃ c, lo ≤ c ∧ c ≤ hi ∧ c ≤ runLen input pos (classMatch ci q) ∧
      k (pos + c) (setCap i (String.mk ((input.drop pos).take c)) caps) = some r := by
  unfold mrun at h
  obtain ⟨c, hmem, hk⟩ := tryCounts_inv _ _ _ _ _ h
  rw [List.mem_reverse] at hmem
  obtain ⟨h1, h2⟩ := mem_upCounts hmem
  rw [Nat.add_sub_cancel_left] at hk
  exact ⟨c, h1, by omega, by omega, hk⟩

/-- Inversion for the verb group `(Departed|Arrived)` (with `re.I`): on
success the group captures a slice of the input that matches one of the two
verbs case-insensitively, and the continuation runs on the updated
captures. -/
theorem mrun_verbGroup_inv {input : List Char} {pos : Nat} {caps : Caps}
    {k : Nat → Caps → Option (Nat × Caps)} {r : Nat × Caps}
    (h : mrun input (RE.group 1 verbDA) pos caps k = some r) :
    ∃ (s : List Char) (p : Nat),
      (ciMatches true "Departed".data s ∨ ciMatches true "Arrived".data s) ∧
      k p (setCap 1 (String.mk s) caps) = some r := by
  unfold verbDA reAltList at h
  simp only [mrun] at h
  have harr : ∀ (hh : (match litAt input true "Arrived".data pos with
      | some p => k p (setCap 1 ⟨List.take (p - pos) (List.drop pos input)⟩ caps)
      | none => none) = some r),
      ∃ (s : List Char) (p : Nat),
        (ciMatches true "Departed".data s ∨ ciMatches true "Arrived".data s) ∧
        k p (setCap 1 (String.mk s) caps) = some r := by
    intro hh
    cases hA : litAt input true "Arrived".data pos with
    | some p =>
      rw [hA] at hh
      dsimp only at hh
      obtain ⟨hlen, hcm⟩ := litAt_slice input true _ pos p hA
      rw [show p - pos = ("Arrived".data).length by omega] at hh
      exact ⟨_, p, Or.inr hcm, hh⟩
    | none =>
      rw [hA] at hh
      simp at hh
  cases hD : litAt input true "Departed".data pos with
  | some p =>
    rw [hD] at h
    dsimp only at h
    cases hkr : k p (setCap 1 ⟨List.take (p - pos) (List.drop pos input)⟩ caps) with
    | some r2 =>
      rw [hkr] at h
      dsimp only at h
      obtain rfl : r2 = r := (Option.some.injEq _ _).mp h
      obtain ⟨hlen, hcm⟩ := litAt_slice input true _ pos p hD
      rw [show p - pos = ("Departed".data).length by omega] at hkr
      exact ⟨_, p, Or.inl hcm, hkr⟩
    | none =>
      rw [hkr] at h
      exact harr (by simpa using h)
  | none =>
    rw [hD] at h
    exact harr (by simpa using h)

theorem mrun_alt_inv {input : List Char} {a b : RE} {pos : Nat} {caps : Caps}
    {k : Nat → Caps → Option (Nat × Caps)} {r : Nat × Caps}
    (h : mrun input (RE.alt a b) pos caps k = some r) :
    mrun input a pos caps k = some r ∨ mrun input b pos caps k = some r := by
  unfold mrun at h
  generalize hm : mrun input a pos caps k = o at h
  cases o with
  | some r2 =>
    dsimp only at h
    exact Or.inl h
  | none =>
    dsimp only at h
    exact Or.inr h

theorem mrun_alt2lits_inv {input : List Char} {s1 s2 : List Char} {ci : Bool}
    {pos : Nat} {caps : Caps} {k : Nat → Caps → Option (Nat × Caps)}
    {r : Nat × Caps}
    (h : mrun input (RE.alt (RE.lit s1 ci) (RE.lit s2 ci)) pos caps k = some r) :
    ∃ p, k p caps = some r := by
  rcases mrun_alt_inv h with h | h <;>
    · obtain ⟨p, _, hk⟩ := mrun_lit_inv h
      exact ⟨p, hk⟩

theorem take_eq_takeWhile_take {α} (q : α → Bool) :
    ∀ (l : List α) (c : Nat), c ≤ (l.takeWhile q).length →
      l.take c = (l.takeWhile q).take c := by
  intro l
  induction l with
  | nil => intro c _; simp
  | cons a t ih =>
    intro c hc
    cases c with
    | zero => simp
    | succ c =>
      cases hq : q a with
      | false =>
        rw [List.takeWhile_cons_of_neg (by simp [hq])] at hc
        exact absurd hc (by simp)
      | true =>
        rw [List.takeWhile_cons_of_pos (by simp [hq])] at hc ⊢
        simp only [List.length_cons] at hc
        rw [List.take_succ_cons, List.take_succ_cons, ih c (by omega)]

theorem mem_take_of_le_takeWhile {q : Char → Bool} {l : List Char} {c : Nat}
    (hc : c ≤ (l.takeWhile q).length) : ∀ x ∈ l.take c, q x = true := by
  intro x hx
  rw [take_eq_takeWhile_take q l c hc] at hx
  exact List.mem_takeWhile_imp (List.take_subset _ _ hx)

theorem takeWhile_len_le (q : Char → Bool) (l : List Char) :
    (l.takeWhile q).length ≤ l.length := by
  induction l with
  | nil => simp
  | cons a t ih =>
    cases hq : q a with
    | true =>
      rw [List.takeWhile_cons_of_pos (by simp [hq])]
      simp only [List.length_cons]
      omega
    | false =>
      rw [List.takeWhile_cons_of_neg (by simp [hq])]
      simp

theorem length_take_of_le_takeWhile {q : Char → Bool} {l : List Char} {c : Nat}
    (hc : c ≤ (l.takeWhile q).length) : (l.take c).length = c := by
  rw [List.length_take]
  have := takeWhile_len_le q l
  omega

/-- Full inversion of a Tier A match: the captures are exactly the verb
(group 1), the station text (group 2) and the code (group 3), the verb is a
case-insensitive match of `Departed` or `Arrived`, and the code is 1–6
characters each matching `[A-Z0-9]` case-insensitively. -/
theorem tierA_capture (input : List Char) (pos e : Nat) (caps : Caps)
    (h : matchAt input tierARE pos = some (e, caps)) :
    ∃ (sV sS sC : List Char),
      caps = [(3, String.mk sC), (2, String.mk sS), (1, String.mk sV)] ∧
      (ciMatches true "Departed".data sV ∨ ciMatches true "Arrived".data sV) ∧
      1 ≤ sC.length ∧ sC.length ≤ 6 ∧
      (∀ c ∈ sC, classMatch true upAlnum c = true) := by
  unfold matchAt tierARE reSeq at h
  simp only [List.foldr] at h
  simp only [reAltList] at h
  rw [mrun_seq2] at h
  obtain ⟨hb1, h⟩ := mrun_wordB_inv h
  try dsimp only at h
  rw [mrun_seq2] at h
  obtain ⟨sV, p1, hverb, h⟩ := mrun_verbGroup_inv h
  try dsimp only at h
  rw [mrun_seq2] at h
  obtain ⟨hb2, h⟩ := mrun_wordB_inv h
  try dsimp only at h
  rw [mrun_seq2] at h
  obtain ⟨c1, hc1, h⟩ := mrun_plus_inv h
  try dsimp only at h
  rw [mrun_seq2] at h
  obtain ⟨p2, h⟩ := mrun_alt2lits_inv h
  try dsimp only at h
  rw [mrun_seq2] at h
  obtain ⟨c2, hc2, h⟩ := mrun_plus_inv h
  try dsimp only at h
  rw [mrun_seq2] at h
  obtain ⟨cS, hcS1, h⟩ := mrun_group_lazyPlus_inv h
  try dsimp only at h
  rw [mrun_seq2] at h
  obtain ⟨c3, h⟩ := mrun_star_inv h
  try dsimp only at h
  rw [mrun_seq2] at h
  obtain ⟨p3, hlp, h⟩ := mrun_lit_inv h
  try dsimp only at h
  rw [mrun_seq2] at h
  obtain ⟨c4, h⟩ := mrun_star_inv h
  try dsimp only at h
  rw [mrun_seq2] at h
  obtain ⟨cC, hcC1, hcC6, hcCrun, h⟩ := mrun_group_rep_inv h
  try dsimp only at h
  rw [mrun_seq2] at h
  obtain ⟨c5, h⟩ := mrun_star_inv h
  try dsimp only at h
  rw [mrun_seq2] at h
  obtain ⟨p4, hlp2, h⟩ := mrun_lit_inv h
  try dsimp only at h
  obtain ⟨p5, hlp3, h⟩ := mrun_lit_inv h
  try dsimp only at h
  obtain ⟨rfl, rfl⟩ : p5 = e ∧ _ = caps := by
    have := (Option.some.injEq _ _).mp h
    exact ⟨congrArg Prod.fst this, congrArg Prod.snd this⟩
  unfold runLen at hcCrun
  refine ⟨sV, _, _, rfl, hverb, ?_, ?_, ?_⟩
  · rw [length_take_of_le_takeWhile hcCrun]
    exact hcC1
  · rw [length_take_of_le_takeWhile hcCrun]
    exact hcC6
  · exact mem_take_of_le_takeWhile hcCrun


/-! ## `str.strip()` idempotence and whitespace facts -/

theorem mem_of_head? {α} {l : List α} {a : α} (h : l.head? = some a) : a ∈ l := by
  cases l with
  | nil => simp at h
  | cons x t =>
    obtain rfl : x = a := by simpa using h
    simp

theorem dropWhile_head_not {p : Char → Bool} :
    ∀ (l : List Char) (a : Char), (l.dropWhile p).head? = some a → p a = false := by
  intro l
  induction l with
  | nil => intro a h; simp at h
  | cons x t ih =>
    intro a h
    cases hp : p x with
    | true =>
      rw [List.dropWhile_cons_of_pos (by simp [hp])] at h
      exact ih a h
    | false =>
      rw [List.dropWhile_cons_of_neg (by simp [hp])] at h
      obtain rfl : x = a := by simpa using h
      exact hp

theorem dropWhile_eq_self {p : Char → Bool} {l : List Char}
    (h : ∀ a, l.head? = some a → p a = false) : l.dropWhile p = l := by
  cases l with
  | nil => simp
  | cons x t => exact List.dropWhile_cons_of_neg (by simp [h x rfl])

theorem dropWhile_idem (p : Char → Bool) (l : List Char) :
    (l.dropWhile p).dropWhile p = l.dropWhile p :=
  dropWhile_eq_self (fun a ha => dropWhile_head_not l a ha)

theorem head?_pref {α} {l₁ l₂ : List α} {a : α} (hp : l₁ <+: l₂)
    (h : l₁.head? = some a) : l₂.head? = some a := by
  obtain ⟨t, rfl⟩ := hp
  cases l₁ with
  | nil => simp at h
  | cons x t1 => simpa using h

theorem trimRight_pref (p : Char → Bool) (l : List Char) :
    (l.reverse.dropWhile p).reverse <+: l := by
  nth_rewrite 2 [show l = l.reverse.reverse from (List.reverse_reverse l).symm]
  rw [ List.reverse_prefix]
  exact List.dropWhile_suffix p

/-- `str.strip()` on a string whose characters are all non-whitespace is the
identity. -/
theorem pyStrip_no_ws {l : List Char} (h : ∀ c ∈ l, pyWs c = false) :
    pyStrip (String.mk l) = String.mk l := by
  unfold pyStrip
  rw [data_mk]
  have h1 : l.dropWhile pyWs = l :=
    dropWhile_eq_self (fun a ha => h a (mem_of_head? ha))
  rw [h1]
  have h2 : l.reverse.dropWhile pyWs = l.reverse :=
    dropWhile_eq_self (fun a ha => h a (by
      have := mem_of_head? ha
      rwa [List.mem_reverse] at this))
  rw [h2, List.reverse_reverse]

/-- `str.strip()` is idempotent. -/
theorem pyStrip_idem (s : String) : pyStrip (pyStrip s) = pyStrip s := by
  unfold pyStrip
  rw [data_mk]
  have hA : (((s.data.dropWhile pyWs).reverse.dropWhile pyWs).reverse).dropWhile pyWs =
      ((s.data.dropWhile pyWs).reverse.dropWhile pyWs).reverse := by
    apply dropWhile_eq_self
    intro a ha
    have hl1 : (s.data.dropWhile pyWs).head? = some a :=
      head?_pref (trimRight_pref pyWs (s.data.dropWhile pyWs)) ha
    exact dropWhile_head_not s.data a hl1
  rw [hA, List.reverse_reverse, dropWhile_idem]

/-- Alphanumeric characters are not Python whitespace. -/
theorem pyWs_of_alnum {c : Char} (h : c.isAlphanum = true) : pyWs c = false := by
  cases hws : pyWs c with
  | false => rfl
  | true =>
    exfalso
    unfold pyWs at hws
    simp only [Bool.or_eq_true, decide_eq_true_eq] at hws
    rw [isAlphanum_iff] at h
    rcases hws with ((((((rfl | rfl) | rfl) | rfl) | rfl) | rfl) | rfl) | rfl <;>
      revert h <;> decide


/-! ## Claim C9: Tier A station codes -/

/-- The claim as written is false: the Tier A pattern `\(\s*([A-Z0-9]{1,6})\s*\)`
is compiled with `re.IGNORECASE`, so a lower-case parenthesised code such as
`(ndls)` matches Tier A and is emitted verbatim as the event's code — the code
is not restricted to upper-case characters. -/
theorem C9_counterexample :
    (reSearch tierARE "Departed from New Delhi (ndls)").isSome = true ∧
    parseLine none 2026 "Departed from New Delhi (ndls)" =
      some ⟨"Departed from New Delhi (ndls)", some "Departed", some "New Delhi",
        some "ndls", none, none⟩ ∧
    ¬ (∀ c ∈ ("ndls" : String).data, c.isUpper = true ∨ c.isDigit = true) :=
  ⟨by decide, by decide, by decide⟩

/-- C9 (amended): Tier A matches only when the parenthesised station code
consists of 1–6 alphanumeric characters — the pattern `[A-Z0-9]{1,6}` is
applied under `re.IGNORECASE`, so lower-case letters are accepted alongside
upper-case letters and digits; and every event Tier A produces has a
title-cased type (`Departed` or `Arrived`), a trimmed non-empty station, and
such a 1–6 character alphanumeric code. -/
theorem C9_tierA_shape (lu : Option DateTime) (ny : Nat) (ln : String)
    (m : RMatch) (hA : reSearch tierARE ln = some m) :
    (∃ sC : List Char, m.group 3 = some (String.mk sC) ∧
      1 ≤ sC.length ∧ sC.length ≤ 6 ∧ ∀ c ∈ sC, c.isAlphanum = true) ∧
    (∀ ev, parseLine lu ny ln = some ev →
      (ev.type = some "Departed" ∨ ev.type = some "Arrived") ∧
      (∃ st, ev.station = some st ∧ pyTruthy st = true ∧ pyStrip st = st) ∧
      (∃ cd : List Char, ev.code = some (String.mk cd) ∧
        1 ≤ cd.length ∧ cd.length ≤ 6 ∧ ∀ c ∈ cd, c.isAlphanum = true)) := by
  have hm := reSearch_inv hA
  obtain ⟨sV, sS, sC, hcaps, hverb, h1, h6, hcls⟩ :=
    tierA_capture ln.data m.start m.stop m.caps hm
  have halnum : ∀ c ∈ sC, c.isAlphanum = true :=
    fun c hc => classMatch_upAlnum (hcls c hc)
  have hg1 : m.group 1 = some (String.mk sV) := by
    simp only [RMatch.group, hcaps]; rfl
  have hg2 : m.group 2 = some (String.mk sS) := by
    simp only [RMatch.group, hcaps]; rfl
  have hg3 : m.group 3 = some (String.mk sC) := by
    simp only [RMatch.group, hcaps]; rfl
  refine ⟨⟨sC, hg3, h1, h6, halnum⟩, ?_⟩
  intro ev hev
  unfold parseLine at hev
  cases hG : reSearch verbGateRE ln with
  | none => rw [hG] at hev; simp at hev
  | some g =>
    rw [hG] at hev
    simp only [Option.isNone_some, Bool.false_eq_true, if_false] at hev
    rw [hA] at hev
    dsimp only at hev
    rw [hg1, hg2, hg3] at hev
    simp only [Option.getD_some] at hev
    split_ifs at hev with hcond
    obtain rfl : _ = ev := (Option.some.injEq _ _).mp hev
    simp only [Bool.and_eq_true] at hcond
    refine ⟨?_, ?_, ?_⟩
    · rcases hverb with hv | hv
      · exact Or.inl (congrArg some (pyTitle_departed hv))
      · exact Or.inr (congrArg some (pyTitle_arrived hv))
    · exact ⟨pyStrip (String.mk sS), rfl, hcond.2, pyStrip_idem _⟩
    · refine ⟨sC, ?_, h1, h6, halnum⟩
      have hns : pyStrip (String.mk sC) = String.mk sC :=
        pyStrip_no_ws (fun c hc => pyWs_of_alnum (halnum c hc))
      exact congrArg some hns

/-- Witness for `C9_tierA_shape`: `"Departed from New Delhi (NDLS)"` matches
Tier A with code `NDLS`, and the produced event has the stated shape. -/
theorem C9_tierA_shape_witness :
    (∃ sC : List Char,
      RMatch.group ⟨0, 30, [(3, "NDLS"), (2, "New Delhi"), (1, "Departed")]⟩ 3 =
        some (String.mk sC) ∧
      1 ≤ sC.length ∧ sC.length ≤ 6 ∧ ∀ c ∈ sC, c.isAlphanum = true) ∧
    (∀ ev, parseLine none 2026 "Departed from New Delhi (NDLS)" = some ev →
      (ev.type = some "Departed" ∨ ev.type = some "Arrived") ∧
      (∃ st, ev.station = some st ∧ pyTruthy st = true ∧ pyStrip st = st) ∧
      (∃ cd : List Char, ev.code = some (String.mk cd) ∧
        1 ≤ cd.length ∧ cd.length ≤ 6 ∧ ∀ c ∈ cd, c.isAlphanum = true)) :=
  C9_tierA_shape none 2026 "Departed from New Delhi (NDLS)"
    ⟨0, 30, [(3, "NDLS"), (2, "New Delhi"), (1, "Departed")]⟩ (by decide)


/-! ## Claim C8: invariants of the line normaliser -/

theorem get?_take_lt {α} : ∀ (l : List α) (n m : Nat), m < n →
    (l.take n).get? m = l.get? m := by
  intro l
  induction l with
  | nil => intro n m _; simp
  | cons a t ih =>
    intro n m hmn
    cases n with
    | zero => omega
    | succ n =>
      rw [List.take_succ_cons]
      cases m with
      | zero => rfl
      | succ m => simpa using ih n m (by omega)

/-- The glue condition of `_clean_line`'s third substitution: the list starts
with the glued label `Last Updates On` immediately followed by a digit. -/
def gluedAt (l : List Char) : Bool :=
  l.take 15 = "Last Updates On".data && (l.get? 15).elim false Char.isDigit

theorem glueAux_cons (fuel : Nat) (c : Char) (rest : List Char) :
    glueAux (fuel + 1) (c :: rest) =
      if gluedAt (c :: rest) then
        "Last Updates On ".data ++ glueAux fuel ((c :: rest).drop 15)
      else c :: glueAux fuel rest := rfl

/-- No suffix of the list satisfies the glue condition. -/
def noGluedB : List Char → Bool
  | [] => true
  | c :: rest => !gluedAt (c :: rest) && noGluedB rest

/-- Well-spaced: every whitespace character is a plain space, and no
whitespace character is immediately followed by another. -/
def wsOK : List Char → Bool
  | [] => true
  | [c] => !pyWs c || c = ' '
  | c :: d :: rest => (!pyWs c || (c = ' ' && !pyWs d)) && wsOK (d :: rest)

theorem wsOK_tail {c : Char} {t : List Char} (h : wsOK (c :: t) = true) :
    wsOK t = true := by
  cases t with
  | nil => rfl
  | cons d r =>
    simp only [wsOK, Bool.and_eq_true] at h
    exact h.2

theorem wsOK_pair {c d : Char} {r : List Char} (h : wsOK (c :: d :: r) = true) :
    (!pyWs c || (c = ' ' && !pyWs d)) = true := by
  simp only [wsOK, Bool.and_eq_true] at h
  exact h.1

theorem wsOK_mem {l : List Char} (h : wsOK l = true) :
    ∀ c ∈ l, pyWs c = true → c = ' ' := by
  induction l with
  | nil => intro c hc; simp at hc
  | cons a t ih =>
    intro c hc hw
    rcases List.mem_cons.mp hc with rfl | hc2
    · cases t with
      | nil =>
        simp only [wsOK, Bool.or_eq_true, Bool.not_eq_true', decide_eq_true_eq] at h
        rcases h with h | h
        · rw [h] at hw; simp at hw
        · exact h
      | cons d r =>
        have hp := wsOK_pair h
        simp only [Bool.or_eq_true, Bool.not_eq_true', Bool.and_eq_true,
          decide_eq_true_eq] at hp
        rcases hp with hp | hp
        · rw [hp] at hw; simp at hw
        · exact hp.1
    · exact ih (wsOK_tail h) c hc2 hw

theorem map_id_of_mem {f : Char → Char} {l : List Char}
    (h : ∀ c ∈ l, f c = c) : l.map f = l := by
  induction l with
  | nil => rfl
  | cons a t ih =>
    simp only [List.map_cons, h a (by simp)]
    rw [ih (fun c hc => h c (by simp [hc]))]

theorem wsOK_append_right {t s : List Char} (h : wsOK (t ++ s) = true) :
    wsOK s = true := by
  induction t with
  | nil => exact h
  | cons a t2 ih => exact ih (wsOK_tail h)

theorem wsOK_append_left {s t : List Char} (h : wsOK (s ++ t) = true) :
    wsOK s = true := by
  induction s with
  | nil => rfl
  | cons a s2 ih =>
    cases s2 with
    | nil =>
      cases t with
      | nil => exact h
      | cons b t2 =>
        have hp := wsOK_pair h
        simp only [wsOK]
        simp only [Bool.or_eq_true, Bool.not_eq_true', Bool.and_eq_true,
          decide_eq_true_eq] at hp ⊢
        rcases hp with hp | hp
        · exact Or.inl hp
        · exact Or.inr hp.1
    | cons b s3 =>
      have hp := wsOK_pair h
      have hrest := ih (wsOK_tail h)
      simp only [wsOK, Bool.and_eq_true]
      exact ⟨hp, hrest⟩

theorem glueAux_nil (fuel : Nat) : glueAux fuel [] = [] := by
  cases fuel <;> rfl

theorem glue_head (fuel : Nat) (m : List Char) :
    (glueAux fuel m).head? = m.head? := by
  cases fuel with
  | zero => rfl
  | succ f =>
    cases m with
    | nil => rfl
    | cons c rest =>
      rw [glueAux_cons]
      split_ifs with hcond
      · simp only [gluedAt, Bool.and_eq_true, decide_eq_true_eq] at hcond
        obtain ⟨h1, _⟩ := hcond
        have h0 := congrArg (fun t => List.get? t 0) h1
        dsimp only at h0
        rw [get?_take_lt _ _ _ (by omega)] at h0
        simp only [List.get?_cons_zero] at h0
        obtain rfl : c = 'L' := Option.some.inj h0
        rfl
      · rfl

theorem collapse_head_eq (fuel : Nat) (m : List Char) (x : Char)
    (hx : m.head? = some x) (hnw : pyWs x = false) :
    (collapseAux fuel m).head? = some x := by
  cases fuel with
  | zero => simpa [collapseAux] using hx
  | succ f =>
    cases m with
    | nil => simp at hx
    | cons c rest =>
      obtain rfl : c = x := by simpa using hx
      simp only [collapseAux]
      rw [if_neg (by simp [hnw])]
      rfl


theorem wsOK_collapse : ∀ (fuel : Nat) (l : List Char), l.length ≤ fuel →
    wsOK (collapseAux fuel l) = true := by
  intro fuel
  induction fuel with
  | zero =>
    intro l hl
    obtain rfl : l = [] := List.eq_nil_of_length_eq_zero (by omega)
    rfl
  | succ f ih =>
    intro l hl
    cases l with
    | nil => rfl
    | cons c rest =>
      simp only [collapseAux]
      split_ifs with hws
      · have hlen : (rest.dropWhile pyWs).length ≤ f := by
          have h1 : (rest.dropWhile pyWs).length ≤ rest.length :=
            (List.dropWhile_suffix pyWs).length_le
          simp only [List.length_cons] at hl
          omega
        have hout := ih (rest.dropWhile pyWs) hlen
        cases hrec : collapseAux f (rest.dropWhile pyWs) with
        | nil => rfl
        | cons d t =>
          rw [hrec] at hout
          have hdn : pyWs d = false := by
            cases hdw : (rest.dropWhile pyWs).head? with
            | none =>
              exfalso
              cases hd2 : rest.dropWhile pyWs with
              | nil => rw [hd2] at hrec; cases f <;> simp [collapseAux] at hrec
              | cons x xs => rw [hd2] at hdw; simp at hdw
            | some x =>
              have hxnw : pyWs x = false := dropWhile_head_not rest x hdw
              have := collapse_head_eq f _ x hdw hxnw
              rw [hrec] at this
              obtain rfl : d = x := by simpa using this
              exact hxnw
          simp only [wsOK, Bool.and_eq_true]
          refine ⟨by simp [hdn], hout⟩
      · have hout := ih rest (by simp only [List.length_cons] at hl; omega)
        cases hrec : collapseAux f rest with
        | nil => simp [wsOK, hws]
        | cons d t =>
          rw [hrec] at hout
          simp only [wsOK, Bool.and_eq_true]
          exact ⟨by simp [hws], hout⟩

theorem collapse_id : ∀ (fuel : Nat) (l : List Char), wsOK l = true →
    collapseAux fuel l = l := by
  intro fuel
  induction fuel with
  | zero => intro l _; rfl
  | succ f ih =>
    intro l hl
    cases l with
    | nil => rfl
    | cons c rest =>
      simp only [collapseAux]
      split_ifs with hws
      · have hc : c = ' ' := wsOK_mem hl c (by simp) hws
        have hdrop : rest.dropWhile pyWs = rest := by
          apply dropWhile_eq_self
          intro a ha
          cases rest with
          | nil => simp at ha
          | cons d r =>
            obtain rfl : d = a := by simpa using ha
            have hp := wsOK_pair hl
            simp only [Bool.or_eq_true, Bool.not_eq_true', Bool.and_eq_true,
              decide_eq_true_eq] at hp
            rcases hp with hp | hp
            · rw [hp] at hws; simp at hws
            · exact hp.2
        rw [hdrop, ih rest (wsOK_tail hl), hc]
      · rw [ih rest (wsOK_tail hl)]


theorem get?_append_lt {α} : ∀ (l₁ l₂ : List α) (n : Nat), n < l₁.length →
    (l₁ ++ l₂).get? n = l₁.get? n := by
  intro l₁
  induction l₁ with
  | nil => intro l₂ n h; simp at h
  | cons a t ih =>
    intro l₂ n h
    cases n with
    | zero => rfl
    | succ n =>
      simp only [List.length_cons] at h
      simpa using ih l₂ n (by omega)

theorem get?_append_ge {α} : ∀ (l₁ l₂ : List α) (n : Nat), l₁.length ≤ n →
    (l₁ ++ l₂).get? n = l₂.get? (n - l₁.length) := by
  intro l₁
  induction l₁ with
  | nil => intro l₂ n _; simp
  | cons a t ih =>
    intro l₂ n h
    cases n with
    | zero => simp at h
    | succ n =>
      simp only [List.length_cons] at h ⊢
      rw [Nat.succ_sub_succ]
      simpa using ih l₂ n (by omega)

theorem lt_length_of_get?_eq_some {α} : ∀ {l : List α} {n : Nat} {a : α},
    l.get? n = some a → n < l.length := by
  intro l
  induction l with
  | nil => intro n a h; simp at h
  | cons x t ih =>
    intro n a h
    cases n with
    | zero => simp
    | succ n =>
      simp only [List.get?_cons_succ] at h
      simp only [List.length_cons]
      exact Nat.succ_lt_succ (ih h)

theorem P_no_L_inside : ∀ i, 1 ≤ i → i ≤ 14 →
    ("Last Updates On".data).get? i = some 'L' → False := by
  intro i h1 h2
  interval_cases i <;> decide

theorem gluedAt_head_ne {c : Char} (hc : c ≠ 'L') (l : List Char) :
    gluedAt (c :: l) = false := by
  cases hga : gluedAt (c :: l) with
  | false => rfl
  | true =>
    exfalso
    simp only [gluedAt, Bool.and_eq_true, decide_eq_true_eq] at hga
    obtain ⟨ht, _⟩ := hga
    have h0 := congrArg (fun t => List.get? t 0) ht
    dsimp only at h0
    rw [get?_take_lt _ _ _ (by omega)] at h0
    simp only [List.get?_cons_zero] at h0
    exact hc (Option.some.inj h0)

theorem gluedAt_lit_cons (l : List Char) :
    gluedAt ('L' :: 'a' :: 's' :: 't' :: ' ' :: 'U' :: 'p' :: 'd' :: 'a' :: 't' :: 'e' :: 's' ::
      ' ' :: 'O' :: 'n' :: ' ' ::l) = false := by
  have hB : (('L' :: 'a' :: 's' :: 't' :: ' ' :: 'U' :: 'p' :: 'd' :: 'a' :: 't' :: 'e' :: 's' ::
      ' ' :: 'O' :: 'n' :: ' ' ::l).get? 15).elim false Char.isDigit = false := rfl
  simp only [gluedAt, hB, Bool.and_false]

theorem gluedAt_glue_pref : ∀ (fuel : Nat) (rest u : List Char),
    1 ≤ u.length → gluedAt (u ++ rest) = false →
    gluedAt (u ++ glueAux fuel rest) = false := by
  intro fuel
  induction fuel with
  | zero => intro rest u _ h; simpa only [glueAux] using h
  | succ f ih =>
    intro rest u hu h
    cases rest with
    | nil => rw [glueAux_nil]; rwa [List.append_nil] at h ⊢
    | cons r rs =>
      rw [glueAux_cons]
      split_ifs with hcond
      · by_cases h14 : u.length ≤ 14
        · have hL : (u ++ ("Last Updates On ".data ++
              glueAux f ((r :: rs).drop 15))).get? u.length = some 'L' := by
            rw [get?_append_ge _ _ _ (le_refl u.length), Nat.sub_self]
            rw [show "Last Updates On ".data =
              'L' :: "ast Updates On ".data from by decide]
            rfl
          cases hga : gluedAt (u ++ ("Last Updates On ".data ++
              glueAux f ((r :: rs).drop 15))) with
          | false => rfl
          | true =>
            exfalso
            simp only [gluedAt, Bool.and_eq_true, decide_eq_true_eq] at hga
            obtain ⟨ht, _⟩ := hga
            have h0 := congrArg (fun t => List.get? t u.length) ht
            dsimp only at h0
            rw [get?_take_lt _ _ _ (by omega)] at h0
            rw [hL] at h0
            exact P_no_L_inside u.length hu h14 h0.symm
        · by_cases h15 : u.length = 15
          · have hL : (u ++ ("Last Updates On ".data ++
                glueAux f ((r :: rs).drop 15))).get? 15 = some 'L' := by
              rw [show (15 : Nat) = u.length from h15.symm]
              rw [get?_append_ge _ _ _ (le_refl u.length), Nat.sub_self]
              rw [show "Last Updates On ".data =
                'L' :: "ast Updates On ".data from by decide]
              rfl
            have hB : ((u ++ ("Last Updates On ".data ++
                glueAux f ((r :: rs).drop 15))).get? 15).elim false
                Char.isDigit = false := by
              rw [hL]; rfl
            simp only [gluedAt, hB, Bool.and_false]
          · have ht : ∀ (z : List Char), (u ++ z).take 15 = u.take 15 :=
              fun z => List.take_append_of_le_length (by omega)
            have hg : ∀ (z : List Char), (u ++ z).get? 15 = u.get? 15 :=
              fun z => get?_append_lt _ _ _ (by omega)
            simp only [gluedAt] at h ⊢
            rw [ht, hg] at h ⊢
            exact h
      · have h2 : gluedAt ((u ++ [r]) ++ rs) = false := by
          rw [List.append_assoc]
          simpa using h
        have h3 := ih rs (u ++ [r]) (by simp) h2
        rw [List.append_assoc] at h3
        simpa using h3

theorem noGlued_glue : ∀ (fuel : Nat) (l : List Char), l.length ≤ fuel →
    noGluedB (glueAux fuel l) = true := by
  intro fuel
  induction fuel with
  | zero =>
    intro l hl
    obtain rfl : l = [] := List.eq_nil_of_length_eq_zero (by omega)
    rfl
  | succ f ih =>
    intro l hl
    cases l with
    | nil => rfl
    | cons c rest =>
      rw [glueAux_cons]
      split_ifs with hcond
      · have hdig : ∃ d, (c :: rest).get? 15 = some d ∧ d.isDigit = true := by
          simp only [gluedAt, Bool.and_eq_true] at hcond
          obtain ⟨-, h2⟩ := hcond
          cases hg : (c :: rest).get? 15 with
          | none => rw [hg] at h2; simp at h2
          | some d => rw [hg] at h2; exact ⟨d, rfl, by simpa using h2⟩
        obtain ⟨d, hg15, -⟩ := hdig
        have hdrop : ((c :: rest).drop 15).length ≤ f := by
          rw [List.length_drop]
          simp only [List.length_cons] at hl ⊢
          omega
        have hout := ih _ hdrop
        rw [show "Last Updates On ".data = ['L','a','s','t',' ','U','p','d',
          'a','t','e','s',' ','O','n',' '] from by decide]
        simp only [List.cons_append, List.nil_append]
        simp only [noGluedB, Bool.and_eq_true, Bool.not_eq_true']
        exact ⟨gluedAt_lit_cons _,
          gluedAt_head_ne (by decide) _, gluedAt_head_ne (by decide) _,
          gluedAt_head_ne (by decide) _, gluedAt_head_ne (by decide) _,
          gluedAt_head_ne (by decide) _, gluedAt_head_ne (by decide) _,
          gluedAt_head_ne (by decide) _, gluedAt_head_ne (by decide) _,
          gluedAt_head_ne (by decide) _, gluedAt_head_ne (by decide) _,
          gluedAt_head_ne (by decide) _, gluedAt_head_ne (by decide) _,
          gluedAt_head_ne (by decide) _, gluedAt_head_ne (by decide) _,
          gluedAt_head_ne (by decide) _, hout⟩
      · have hout := ih rest (by simp only [List.length_cons] at hl; omega)
        simp only [noGluedB, Bool.and_eq_true, Bool.not_eq_true']
        refine ⟨?_, hout⟩
        have h0 : gluedAt ([c] ++ rest) = false := by
          simpa using (by simpa using hcond : gluedAt (c :: rest) = false)
        have h1 := gluedAt_glue_pref f rest [c] (by simp) h0
        simpa using h1


theorem head?_drop_get? (l : List Char) (n : Nat) :
    (l.drop n).head? = l.get? n := by
  rw [List.head?_drop, List.get?_eq_getElem?]

theorem wsOK_drop : ∀ (n : Nat) (l : List Char), wsOK l = true →
    wsOK (l.drop n) = true := by
  intro n
  induction n with
  | zero => intro l h; exact h
  | succ m ih =>
    intro l h
    cases l with
    | nil => rfl
    | cons c t => exact ih t (wsOK_tail h)

theorem wsOK_glue : ∀ (fuel : Nat) (l : List Char), wsOK l = true →
    wsOK (glueAux fuel l) = true := by
  intro fuel
  induction fuel with
  | zero => intro l h; exact h
  | succ f ih =>
    intro l hl
    cases l with
    | nil => rfl
    | cons c rest =>
      rw [glueAux_cons]
      split_ifs with hcond
      · have hdig : ∃ d, (c :: rest).get? 15 = some d ∧ d.isDigit = true := by
          simp only [gluedAt, Bool.and_eq_true] at hcond
          obtain ⟨-, h2⟩ := hcond
          cases hg : (c :: rest).get? 15 with
          | none => rw [hg] at h2; simp at h2
          | some d => rw [hg] at h2; exact ⟨d, rfl, by simpa using h2⟩
        obtain ⟨d, hg15, hdd⟩ := hdig
        have hdns : pyWs d = false := pyWs_of_alnum (by simp [Char.isAlphanum, hdd])
        have hws2 := ih ((c :: rest).drop 15) (wsOK_drop 15 _ hl)
        have hhead : (glueAux f ((c :: rest).drop 15)).head? = some d := by
          rw [glue_head, head?_drop_get?, hg15]
        rw [show "Last Updates On ".data = ['L','a','s','t',' ','U','p','d',
          'a','t','e','s',' ','O','n',' '] from by decide]
        simp only [List.cons_append, List.nil_append]
        cases hrec : glueAux f ((c :: rest).drop 15) with
        | nil => decide
        | cons e t =>
          rw [hrec] at hws2 hhead
          obtain rfl : e = d := by simpa using hhead
          simp only [wsOK, Bool.and_eq_true]
          refine ⟨by decide, by decide, by decide, by decide, by decide,
            by decide, by decide, by decide, by decide, by decide, by decide,
            by decide, by decide, by decide, by decide, ?_, hws2⟩
          simp [hdns]
      · cases rest with
        | nil => rw [glueAux_nil]; exact hl
        | cons r rs =>
          have hws2 := ih (r :: rs) (wsOK_tail hl)
          have hhead : (glueAux f (r :: rs)).head? = some r := glue_head f _
          cases hrec : glueAux f (r :: rs) with
          | nil => rw [hrec] at hhead; simp at hhead
          | cons e t =>
            rw [hrec] at hws2 hhead
            obtain rfl : e = r := by simpa using hhead
            simp only [wsOK, Bool.and_eq_true]
            exact ⟨wsOK_pair hl, hws2⟩

theorem glue_noop : ∀ (fuel : Nat) (l : List Char), noGluedB l = true →
    glueAux fuel l = l := by
  intro fuel
  induction fuel with
  | zero => intro l _; rfl
  | succ f ih =>
    intro l hl
    cases l with
    | nil => rfl
    | cons c rest =>
      simp only [noGluedB, Bool.and_eq_true, Bool.not_eq_true'] at hl
      rw [glueAux_cons, if_neg (by simp [hl.1]), ih rest hl.2]

theorem gluedAt_append_mono {w : List Char} (t : List Char)
    (h : gluedAt w = true) : gluedAt (w ++ t) = true := by
  simp only [gluedAt, Bool.and_eq_true, decide_eq_true_eq] at h ⊢
  obtain ⟨h1, h2⟩ := h
  cases hw : w.get? 15 with
  | none => rw [hw] at h2; simp at h2
  | some d =>
    have hlen := lt_length_of_get?_eq_some hw
    rw [hw] at h2
    constructor
    · rw [List.take_append_of_le_length (by omega)]
      exact h1
    · rw [get?_append_lt _ _ _ (by omega), hw]
      exact h2

theorem noGluedB_append_right : ∀ (t s : List Char),
    noGluedB (t ++ s) = true → noGluedB s = true := by
  intro t
  induction t with
  | nil => intro s h; exact h
  | cons a t2 ih =>
    intro s h
    simp only [List.cons_append, noGluedB, Bool.and_eq_true] at h
    exact ih s h.2

theorem noGluedB_append_left : ∀ (s t : List Char),
    noGluedB (s ++ t) = true → noGluedB s = true := by
  intro s
  induction s with
  | nil => intro t _; rfl
  | cons a s2 ih =>
    intro t h
    simp only [List.cons_append, noGluedB, Bool.and_eq_true,
      Bool.not_eq_true', List.append_eq] at h ⊢
    refine ⟨?_, ih t h.2⟩
    cases hga : gluedAt (a :: s2) with
    | false => rfl
    | true =>
      have := gluedAt_append_mono t hga
      rw [show (a :: s2) ++ t = a :: (s2 ++ t) from rfl] at this
      rw [this] at h
      simp at h

/-- The two invariants survive the final two-sided strip. -/
theorem clean_props (q : Char → Bool) (m : List Char)
    (h1 : wsOK m = true) (h2 : noGluedB m = true) :
    wsOK (((m.dropWhile q).reverse.dropWhile q).reverse) = true ∧
    noGluedB (((m.dropWhile q).reverse.dropWhile q).reverse) = true := by
  obtain ⟨t₁, ht1⟩ := (List.dropWhile_suffix q : m.dropWhile q <:+ m)
  obtain ⟨t₂, ht2⟩ := trimRight_pref q (m.dropWhile q)
  have hd1 : wsOK (m.dropWhile q) = true := by
    rw [← ht1] at h1
    exact wsOK_append_right h1
  have hd2 : noGluedB (m.dropWhile q) = true := by
    rw [← ht1] at h2
    exact noGluedB_append_right t₁ _ h2
  constructor
  · rw [← ht2] at hd1
    exact wsOK_append_left hd1
  · rw [← ht2] at hd2
    exact noGluedB_append_left _ _ hd2

theorem mk_data (s : String) : String.mk s.data = s := by
  cases s
  rfl

/-- `str.strip(chars)` is idempotent. -/
theorem pyStripChars_idem (cs s : String) :
    pyStripChars cs (pyStripChars cs s) = pyStripChars cs s := by
  unfold pyStripChars
  rw [data_mk]
  have hA : ((((s.data.dropWhile (cs.data.contains ·)).reverse.dropWhile
      (cs.data.contains ·)).reverse)).dropWhile (cs.data.contains ·) =
      (((s.data.dropWhile (cs.data.contains ·)).reverse.dropWhile
      (cs.data.contains ·)).reverse) := by
    apply dropWhile_eq_self
    intro a ha
    have hl1 : (s.data.dropWhile (cs.data.contains ·)).head? = some a :=
      head?_pref (trimRight_pref _ (s.data.dropWhile (cs.data.contains ·))) ha
    exact dropWhile_head_not s.data a hl1
  rw [hA, List.reverse_reverse, dropWhile_idem]


theorem clean_line_props (x : String) :
    wsOK (clean_line x).data = true ∧ noGluedB (clean_line x).data = true := by
  have hws2 : wsOK (collapseWs (String.mk ((pyUnescape x).data.map
      (fun c => if c = '\u00A0' then ' ' else c)))).data = true := by
    unfold collapseWs
    rw [data_mk]
    exact wsOK_collapse _ _ (by omega)
  have hws3 : wsOK (glueFix (collapseWs (String.mk ((pyUnescape x).data.map
      (fun c => if c = '\u00A0' then ' ' else c))))).data = true := by
    unfold glueFix
    rw [data_mk]
    exact wsOK_glue _ _ hws2
  have hng3 : noGluedB (glueFix (collapseWs (String.mk ((pyUnescape x).data.map
      (fun c => if c = '\u00A0' then ' ' else c))))).data = true := by
    unfold glueFix
    rw [data_mk]
    exact noGlued_glue _ _ (by omega)
  exact clean_props ((" \t\n\x0d\u00A0" : String).data.contains ·)
    (glueFix (collapseWs (String.mk ((pyUnescape x).data.map
      (fun c => if c = '\u00A0' then ' ' else c))))).data hws3 hng3

/-- The claim as written is false: `_clean_line` is not idempotent, because
`html.unescape` can uncover a fresh entity on a second pass — a line containing
the doubly-escaped `&amp;amp;` cleans to one containing `&amp;`, which a second
clean decodes further to `&`. -/
theorem C8_counterexample :
    clean_line (clean_line "Arrived &amp;amp; Departed") ≠
      clean_line "Arrived &amp;amp; Departed" := by decide

/-- C8 (amended): `_clean_line` is a pure total function, and it is idempotent
exactly on the lines whose cleaned form is a fixed point of `html.unescape`:
whenever entity decoding leaves the cleaned line unchanged (in particular for
every line without a doubly-escaped entity), cleaning the cleaner's own output
returns it unchanged — whitespace collapsing, the NBSP replacement, the glued
`Last Updates On` fix and the final strip are all individually idempotent. -/
theorem C8_normalizer_idem (x : String)
    (h : pyUnescape (clean_line x) = clean_line x) :
    clean_line (clean_line x) = clean_line x := by
  obtain ⟨hws, hng⟩ := clean_line_props x
  have h2 : String.mk ((pyUnescape (clean_line x)).data.map
      (fun c => if c = '\u00A0' then ' ' else c)) = clean_line x := by
    rw [h]
    apply str_ext
    rw [data_mk]
    apply map_id_of_mem
    intro c hc
    have hne : c ≠ '\u00A0' := by
      intro he
      have h' := wsOK_mem hws c hc (by rw [he]; decide)
      rw [he] at h'
      exact absurd h' (by decide)
    rw [if_neg hne]
  have h3 : collapseWs (clean_line x) = clean_line x := by
    unfold collapseWs
    apply str_ext
    rw [data_mk]
    exact collapse_id _ _ hws
  have h4 : glueFix (clean_line x) = clean_line x := by
    unfold glueFix
    apply str_ext
    rw [data_mk]
    exact glue_noop _ _ hng
  have h5 : pyStripChars " \t\n\x0d\u00A0" (clean_line x) = clean_line x :=
    pyStripChars_idem " \t\n\x0d\u00A0" (glueFix (collapseWs (String.mk
      ((pyUnescape x).data.map (fun c => if c = '\u00A0' then ' ' else c)))))
  calc clean_line (clean_line x)
      = pyStripChars " \t\n\x0d\u00A0" (glueFix (collapseWs (String.mk
          ((pyUnescape (clean_line x)).data.map
            (fun c => if c = '\u00A0' then ' ' else c))))) := rfl
    _ = pyStripChars " \t\n\x0d\u00A0" (glueFix (collapseWs (clean_line x))) := by
          rw [h2]
    _ = pyStripChars " \t\n\x0d\u00A0" (glueFix (clean_line x)) := by rw [h3]
    _ = pyStripChars " \t\n\x0d\u00A0" (clean_line x) := by rw [h4]
    _ = clean_line x := h5

/-- Witness for `C8_normalizer_idem`: a plain status line with no entities is
a fixed point of the unescape step, and cleaning is idempotent on it. -/
theorem C8_normalizer_idem_witness :
    pyUnescape (clean_line "Arrived at New Delhi (NDLS)") =
      clean_line "Arrived at New Delhi (NDLS)" ∧
    clean_line (clean_line "Arrived at New Delhi (NDLS)") =
      clean_line "Arrived at New Delhi (NDLS)" :=
  have h : pyUnescape (clean_line "Arrived at New Delhi (NDLS)") =
      clean_line "Arrived at New Delhi (NDLS)" := by decide
  ⟨h, C8_normalizer_idem "Arrived at New Delhi (NDLS)" h⟩

end TrainTrack
